import Mathlib

/-!
Verification of the arena allocator (src/arena.c with the matching header
src/include/arena.h).

The embedding is byte-level: each region's backing buffer is a function from
byte address to byte value.  The metadata header

  typedef struct \x7b u32 data_size; u32 block_used : 1; u32 block_size : 31; \x7d metadata;

occupies 8 bytes at the start of every block: bytes 0..3 hold data_size
(little endian) and bytes 4..7 hold the packed word whose bit 0 is
block_used and whose bits 1..31 are block_size (the usual little-endian
bitfield layout).  u64 arithmetic wraps modulo 2^64, assignments into the
31-bit field truncate modulo 2^31, assignments into data_size truncate
modulo 2^32, and free_count is a u8 (modulo 256).

malloc is modelled by passing the (arbitrary, uninitialized) contents of a
freshly acquired buffer as an explicit argument; arena_create leaves
free_count uninitialized exactly as the C does, so the garbage byte it ends
up holding is likewise an explicit argument.  C loops whose progress depends
on in-memory block sizes are given explicit fuel; the fuel bounds chosen are
proven sufficient under the block-tiling invariant.
-/

namespace ArenaC

/-- 2^64, the modulus of u64 arithmetic. -/
def U64 : Nat := 18446744073709551616

/-- 2^32, the modulus of the u32 data_size field. -/
def U32 : Nat := 4294967296

/-- 2^31, the modulus of the 31-bit block_size field. -/
def U31 : Nat := 2147483648

/-- MAX_ARENA_SIZE from include/arena.h: 1024 * 1024 * 1 bytes. -/
def MAX_ARENA_SIZE : Nat := 1024 * 1024 * 1

/-- ARENA_ALIGNMENT from arena.h. -/
def ARENA_ALIGNMENT : Nat := 16

/-- MAX_FREE_COUNT from arena.h. -/
def MAX_FREE_COUNT : Nat := 10

/-- MAX_BLOCK_SIZE from arena.h: (1U << 31) - 1. -/
def MAX_BLOCK_SIZE : Nat := U31 - 1

/-- sizeof(metadata): two packed u32 words. -/
def metaSize : Nat := 8

/-- Byte contents of one region's backing buffer. -/
def Mem : Type := Nat → Nat

/-- An all-zero buffer, used for concrete test states. -/
def zeroMem : Mem := fun _ => 0

/-- Read one byte (bytes are values modulo 256). -/
def byteAt (m : Mem) (i : Nat) : Nat := m i % 256

/-- Write one byte. -/
def wByte (m : Mem) (i v : Nat) : Mem := fun j => if j = i then v % 256 else m j

/-- Read a little-endian u32 at address i. -/
def rWord (m : Mem) (i : Nat) : Nat :=
  byteAt m i + 256 * byteAt m (i + 1) + 65536 * byteAt m (i + 2) + 16777216 * byteAt m (i + 3)

/-- Write a little-endian u32 at address i. -/
def wWord (m : Mem) (i v : Nat) : Mem :=
  wByte (wByte (wByte (wByte m i v) (i + 1) (v / 256)) (i + 2) (v / 65536)) (i + 3) (v / 16777216)

/-- bzero(p + i, n): zero n bytes starting at address i. -/
def bzero (m : Mem) (i : Nat) : Nat → Mem
  | 0 => m
  | n + 1 => wByte (bzero m i n) (i + n) 0

/-- u64 subtraction a - b with wraparound (a assumed reduced modulo 2^64). -/
def usub (a b : Nat) : Nat := (a + (U64 - b % U64)) % U64

/-- arena_get_block_size: meta->block_size of the header 8 bytes before the
data pointer dp, i.e. bits 1..31 of the packed word at dp - 4. -/
def arena_get_block_size (m : Mem) (dp : Nat) : Nat := rWord m (dp - 4) / 2

/-- arena_is_block_free: meta->block_used == 0. -/
def arena_is_block_free (m : Mem) (dp : Nat) : Bool := decide (rWord m (dp - 4) % 2 = 0)

/-- arena_get_data_size: meta->data_size, the u32 at dp - 8. -/
def arena_get_data_size (m : Mem) (dp : Nat) : Nat := rWord m (dp - 8)

/-- arena_set_block_size: meta->block_size = v (truncated to 31 bits),
preserving the block_used bit. -/
def arena_set_block_size (m : Mem) (dp v : Nat) : Mem :=
  wWord m (dp - 4) (rWord m (dp - 4) % 2 + 2 * (v % U31))

/-- arena_set_block_used: meta->block_used = u, preserving block_size. -/
def arena_set_block_used (m : Mem) (dp : Nat) (u : Bool) : Mem :=
  wWord m (dp - 4) ((if u then 1 else 0) + 2 * (rWord m (dp - 4) / 2))

/-- arena_set_data_size: meta->data_size = v (truncated to u32). -/
def arena_set_data_size (m : Mem) (dp v : Nat) : Mem := wWord m (dp - 8) (v % U32)

/-- The Arena struct: backing buffer contents, space, size, offset,
free_count and the optional child arena. -/
inductive Arena : Type where
  | mk (memory : Mem) (space size offset free_count : Nat) (child : Option Arena) : Arena

/-- Projection: the region's byte contents. -/
def Arena.memory : Arena → Mem
  | .mk m _ _ _ _ _ => m

/-- Projection: remaining free space counter. -/
def Arena.space : Arena → Nat
  | .mk _ sp _ _ _ _ => sp

/-- Projection: total region size. -/
def Arena.size : Arena → Nat
  | .mk _ _ sz _ _ _ => sz

/-- Projection: bump offset (high-water mark). -/
def Arena.offset : Arena → Nat
  | .mk _ _ _ off _ _ => off

/-- Projection: deferred-merge counter. -/
def Arena.free_count : Arena → Nat
  | .mk _ _ _ _ fc _ => fc

/-- Projection: overflow child. -/
def Arena.child : Arena → Option Arena
  | .mk _ _ _ _ _ ch => ch

/-- Replace the child pointer. -/
def setChild : Arena → Option Arena → Arena
  | .mk m sp sz off fc _, ch => .mk m sp sz off fc ch

/-- Replace space and free_count on the head node. -/
def setSpaceFc : Arena → Nat → Nat → Arena
  | .mk m _ sz off _ ch, sp, fc => .mk m sp sz off fc ch

/-- Replace free_count on the head node. -/
def setFc : Arena → Nat → Arena
  | .mk m sp sz off _ ch, fc => .mk m sp sz off fc ch

/-- Number of nodes in the arena chain. -/
def chainLen : Arena → Nat
  | .mk _ _ _ _ _ none => 1
  | .mk _ _ _ _ _ (some c) => 1 + chainLen c

/-- The d-th node of the chain (0 = head). -/
def regionAt : Arena → Nat → Option Arena
  | a, 0 => some a
  | a, d + 1 =>
    match a.child with
    | none => none
    | some c => regionAt c d

/-- The byte contents of the d-th region. -/
def regionMem (a : Arena) (d : Nat) : Option Mem :=
  match regionAt a d with
  | none => none
  | some n => some n.memory

/-- Apply a memory transformation to the d-th region, leaving everything
else unchanged.  Out-of-range depths leave the arena unchanged. -/
def modifyRegion : Arena → Nat → (Mem → Mem) → Arena
  | .mk m sp sz off fc ch, 0, f => .mk (f m) sp sz off fc ch
  | .mk m sp sz off fc none, _ + 1, _ => .mk m sp sz off fc none
  | .mk m sp sz off fc (some c), d + 1, f => .mk m sp sz off fc (some (modifyRegion c d f))

/-- The pure alignment function (x + 15) & ~15 without wraparound; this is
what ARENA_ALIGN_UP computes on arguments below 2^64 - 15. -/
def alignUp (x : Nat) : Nat := (x + 15) / 16 * 16

/-- total_size = ARENA_ALIGN_UP(size + sizeof(metadata)) computed in u64
arithmetic (additions wrap modulo 2^64, then the low 4 bits are cleared). -/
def totalSizeOf (size : Nat) : Nat := ((size % U64 + 8) % U64 + 15) % U64 / 16 * 16

/-- Error results of the allocator, one per distinct diagnostic emitted by
arena.c (the C returns NULL in all four cases). -/
inductive AErr : Type where
  | invalidArena : AErr
  | invalidSize : AErr
  | allocTooLarge : AErr
  | blockTooLarge : AErr
deriving DecidableEq

/-- A caller-visible data pointer: which region of the chain it lives in and
the byte offset of the data area inside that region. -/
structure APtr where
  depth : Nat
  off : Nat
deriving DecidableEq

/-- arena_create(size): reject size == 0 and size > MAX_ARENA_SIZE, else
build a node over the freshly malloc'd buffer.  The C code initializes
memory, space, size, offset and child but NOT free_count, which therefore
holds the junk byte left by malloc. -/
def arena_create (size : Nat) (fresh : Mem) (junk : Nat) : Option Arena :=
  if size % U64 = 0 ∨ MAX_ARENA_SIZE < size % U64 then none
  else some (Arena.mk fresh (size % U64) (size % U64) 0 (junk % 256) none)

/-- The loop of arena_find_free_block, with explicit fuel. -/
def findLoop (e total : Nat) : Nat → Mem → Nat → Option Nat
  | 0, _, _ => none
  | fuel + 1, m, off =>
    if off < e then
      let bs := arena_get_block_size m (off + 8)
      if arena_is_block_free m (off + 8) = true ∧ total ≤ bs then some off
      else findLoop e total fuel m (off + bs)
    else none

/-- arena_find_free_block: first-fit scan of the current region only.  Fuel
offset + 1 suffices because every block of a tiled region has positive
size. -/
def arena_find_free_block (a : Arena) (total : Nat) : Option Nat :=
  findLoop a.offset total (a.offset + 1) a.memory 0

/-- The loop of arena_merge_free_blocks, with explicit fuel.  On a merge the
scan continues at the same offset (the C continue), otherwise it advances by
the block size. -/
def mergeLoop (e : Nat) : Nat → Mem → Nat → Mem
  | 0, m, _ => m
  | fuel + 1, m, off =>
    if off < e then
      let bs := arena_get_block_size m (off + 8)
      if e ≤ off + bs then m
      else
        let nbs := arena_get_block_size m (off + bs + 8)
        if bs < MAX_BLOCK_SIZE ∧ arena_is_block_free m (off + 8) = true ∧
            arena_is_block_free m (off + bs + 8) = true then
          let m1 := bzero m (off + bs) metaSize
          let m2 := arena_set_block_size m1 (off + 8) (bs + nbs)
          let m3 := arena_set_block_used m2 (off + 8) false
          mergeLoop e fuel m3 off
        else
          mergeLoop e fuel m (off + bs)
    else m

/-- arena_merge_free_blocks: one linear coalescing pass over the head
region.  Fuel 2 * offset + 2 suffices under the tiling invariant (at most
offset merges and offset advances). -/
def arena_merge_free_blocks (a : Arena) : Arena :=
  Arena.mk (mergeLoop a.offset (2 * a.offset + 2) a.memory 0)
    a.space a.size a.offset a.free_count a.child

/-- The bump-allocation tail of arena_alloc: zero the whole new block,
write its header, advance offset, decrease space. -/
def allocBump (a : Arena) (size total : Nat) : Except AErr APtr × Arena :=
  let bp := a.offset
  let m1 := bzero a.memory bp total
  let m2 := arena_set_block_size m1 (bp + 8) total
  let m3 := arena_set_block_used m2 (bp + 8) true
  let m4 := arena_set_data_size m3 (bp + 8) size
  (Except.ok (APtr.mk 0 (bp + 8)),
   Arena.mk m4 (usub a.space total) a.size ((a.offset + total) % U64) a.free_count a.child)

/-- The reuse branch of arena_alloc on a found free block fb.  Note: in the
split branch the C code never stores data_size on the reused block; the
embedding reproduces that faithfully.  The space decrement re-reads the
block size after the header updates, exactly as the C does. -/
def allocReuse (a : Arena) (size total fb : Nat) : Except AErr APtr × Arena :=
  let m := a.memory
  let s := arena_get_block_size m (fb + 8)
  if total + alignUp (ARENA_ALIGNMENT + metaSize) ≤ s then
    let m1 := arena_set_block_size m (fb + 8) total
    let m2 := arena_set_block_used m1 (fb + 8) true
    let m3 := arena_set_block_size m2 (fb + total + 8) (s - total)
    let m4 := arena_set_block_used m3 (fb + total + 8) false
    let m5 := arena_set_data_size m4 (fb + total + 8) 0
    (Except.ok (APtr.mk 0 (fb + 8)),
     Arena.mk m5 (usub a.space (arena_get_block_size m5 (fb + 8)))
       a.size a.offset a.free_count a.child)
  else
    let m1 := arena_set_block_used m (fb + 8) true
    let m2 := arena_set_data_size m1 (fb + 8) size
    (Except.ok (APtr.mk 0 (fb + 8)),
     Arena.mk m2 (usub a.space (arena_get_block_size m2 (fb + 8)))
       a.size a.offset a.free_count a.child)

/-- One unfolding of arena_alloc's body; rec is the recursive call used for
overflow delegation into the child. -/
def aallocStep (rec : Arena → Nat → Mem → Nat → Except AErr APtr × Arena)
    (a : Arena) (size : Nat) (fresh : Mem) (junk : Nat) : Except AErr APtr × Arena :=
  if size % U64 = 0 then (Except.error AErr.invalidSize, a)
  else
    let total := totalSizeOf size
    if a.size < total then (Except.error AErr.allocTooLarge, a)
    else if MAX_BLOCK_SIZE < total then (Except.error AErr.blockTooLarge, a)
    else
      match arena_find_free_block a total with
      | some fb => allocReuse a size total fb
      | none =>
        if a.size < (a.offset + total) % U64 then
          match a.child with
          | some c =>
            let r := rec c size fresh junk
            (Except.map (fun p => APtr.mk (p.depth + 1) p.off) r.1, setChild a (some r.2))
          | none =>
            match arena_create a.size fresh junk with
            | none => (Except.error AErr.invalidArena, setChild a none)
            | some c =>
              let r := rec c size fresh junk
              (Except.map (fun p => APtr.mk (p.depth + 1) p.off) r.1, setChild a (some r.2))
        else allocBump a size total

/-- arena_alloc with explicit recursion fuel; fuel 0 mirrors the null-arena
failure (it is never reached with the fuel supplied by arena_alloc). -/
def aalloc : Nat → Arena → Nat → Mem → Nat → Except AErr APtr × Arena
  | 0, a, _, _, _ => (Except.error AErr.invalidArena, a)
  | fuel + 1, a, size, fresh, junk => aallocStep (aalloc fuel) a size fresh junk

/-- arena_alloc(arena, size).  fresh is the malloc'd contents of a child
buffer should one be created, junk the uninitialized free_count byte of a
created child node.  Fuel chainLen + 2 covers the deepest possible
delegation (down the chain plus one freshly created child). -/
def arena_alloc (a : Arena) (size : Nat) (fresh : Mem) (junk : Nat) :
    Except AErr APtr × Arena :=
  aalloc (chainLen a + 2) a size fresh junk

/-- arena_alloc including the NULL-arena check (a null handle is none). -/
def arena_allocH : Option Arena → Nat → Mem → Nat → Except AErr APtr × Option Arena
  | none, _, _, _ => (Except.error AErr.invalidArena, none)
  | some a, size, fresh, junk =>
    let r := arena_alloc a size fresh junk
    (r.1, some r.2)

/-- arena_free(arena, ptr).  A null ptr is a no-op.  Otherwise the header in
front of ptr (which may live in any region of the chain) is marked free with
data_size 0, the data area is zeroed, and space and free_count of the node
the call was made on - the head - are updated; reaching MAX_FREE_COUNT
triggers the coalescing pass over the head region and resets free_count.
A ptr whose depth exceeds the chain is a wild pointer (undefined behavior in
C); the model leaves the arena unchanged in that case. -/
def arena_free (a : Arena) (ptr : Option APtr) : Arena :=
  match ptr with
  | none => a
  | some p =>
    match regionMem a p.depth with
    | none => a
    | some m =>
      let bs := arena_get_block_size m p.off
      let a1 := modifyRegion a p.depth (fun mm =>
        bzero (arena_set_block_used (arena_set_data_size mm p.off 0) p.off false)
          p.off (bs - metaSize))
      let sp := (a1.space + bs) % U64
      let fc := (a1.free_count + 1) % 256
      let a2 := setSpaceFc a1 sp fc
      if fc = MAX_FREE_COUNT then setFc (arena_merge_free_blocks a2) 0 else a2

/-- arena_reset: walk the chain setting offset = 0 and space = size on every
node; memory contents and free_count are left untouched. -/
def arena_reset : Arena → Arena
  | .mk m _ sz _ fc none => .mk m sz sz 0 fc none
  | .mk m _ sz _ fc (some c) => .mk m sz sz 0 fc (some (arena_reset c))

/-- The blocks of region contents m tile the byte range from o to e: the
header decoded at each boundary gives the (positive, 16-divisible) size of
the block, the next boundary is that size further on, and the last boundary
is exactly e.  The list records each block's size together with its decoded
free flag. -/
inductive BlocksAt (m : Mem) : Nat → Nat → List (Nat × Bool) → Prop where
  | nil (e : Nat) : BlocksAt m e e []
  | cons (o e s : Nat) (f : Bool) (L : List (Nat × Bool))
      (hs : arena_get_block_size m (o + 8) = s)
      (hpos : 0 < s) (hdvd : 16 ∣ s)
      (hf : arena_is_block_free m (o + 8) = f)
      (hrest : BlocksAt m (o + s) e L) : BlocksAt m o e ((s, f) :: L)

/-- Sum of the block_size fields of a block list. -/
def sizeSum : List (Nat × Bool) → Nat
  | [] => 0
  | (s, _) :: L => s + sizeSum L

/-- The used blocks of a block list starting at offset o, each recorded as
(offset, size). -/
def usedBlocks (o : Nat) : List (Nat × Bool) → List (Nat × Nat)
  | [] => []
  | (s, true) :: L => usedBlocks (o + s) L
  | (s, false) :: L => (o, s) :: usedBlocks (o + s) L

/-- The internal block boundaries of a block list starting at o (all
boundaries except the two ends). -/
def internalBds (o : Nat) : List (Nat × Bool) → List Nat
  | [] => []
  | [_] => []
  | (s, _) :: L => (o + s) :: internalBds (o + s) L

/-- No two physically adjacent blocks are both free. -/
def Coalesced : List (Nat × Bool) → Prop
  | (_, true) :: (_, true) :: _ => False
  | _ :: L => Coalesced L
  | [] => True

/-- Modelled from the spec: the list-level effect of one coalescing pass -
every maximal run of adjacent free blocks becomes a single free block whose
size is the sum of the run; used blocks are untouched. -/
def specCoalesce : List (Nat × Bool) → List (Nat × Bool)
  | [] => []
  | (s, false) :: L => (s, false) :: specCoalesce L
  | (s, true) :: L =>
    match specCoalesce L with
    | (t, true) :: L1 => (s + t, true) :: L1
    | r => (s, true) :: r

/-- The 8 header bytes at block boundary b decode as an all-zero header. -/
def headerZeroed (m : Mem) (b : Nat) : Prop :=
  arena_get_block_size m (b + 8) = 0 ∧ arena_get_data_size m (b + 8) = 0 ∧
    arena_is_block_free m (b + 8) = true

/-- The per-region well-formedness invariant: the bump offset stays inside
the region, the region respects the compile-time size cap, and the blocks
tile the range from 0 to offset. -/
def RegionInv (a : Arena) : Prop :=
  a.offset ≤ a.size ∧ a.size ≤ MAX_ARENA_SIZE ∧
    ∃ L, BlocksAt a.memory 0 a.offset L

/-- The whole-chain invariant: every node of the chain satisfies
RegionInv. -/
def ChainInv : Arena → Prop
  | .mk m sp sz off fc none => RegionInv (.mk m sp sz off fc none)
  | .mk m sp sz off fc (some c) =>
    RegionInv (.mk m sp sz off fc (some c)) ∧ ChainInv c

/-- Every node of the chain satisfies P. -/
def allNodes (P : Arena → Prop) : Arena → Prop
  | .mk m sp sz off fc none => P (.mk m sp sz off fc none)
  | .mk m sp sz off fc (some c) => P (.mk m sp sz off fc (some c)) ∧ allNodes P c

/-- ptr is a valid data pointer of the chain: its region exists and its
header sits on a block boundary of that region's tiling. -/
def ValidFreePtr (a : Arena) (p : APtr) : Prop :=
  ∃ node, regionAt a p.depth = some node ∧
    ∃ bd L1 s f L2, p.off = bd + 8 ∧
      BlocksAt node.memory 0 bd L1 ∧
      BlocksAt node.memory bd node.offset ((s, f) :: L2)

/-- Concrete state: a fresh 1024-byte arena (as built by arena_create with
an all-zero buffer and a zero junk byte). -/
def exFresh1024 : Arena := Arena.mk zeroMem 1024 1024 0 0 none

/-- Concrete state for the C8 counterexample: same fresh 1024-byte arena. -/
def cex8Arena : Arena := Arena.mk zeroMem 1024 1024 0 0 none

/-- Concrete child region contents for the C6 counterexample: one used block
of size 16 at offset 0 with data_size 4 (header word 1 + 2 * 16 = 33). -/
def cex6ChildMem : Mem := fun i => if i = 0 then 4 else if i = 4 then 33 else 0

/-- Concrete chain for the C6 counterexample: a full 32-byte head whose
child holds one used block at offset 0. -/
def cex6Head : Arena :=
  Arena.mk zeroMem 0 32 32 0
    (some (Arena.mk cex6ChildMem 16 32 16 0 none))

/-- Concrete head-region contents for the C5 witness: one used block of size
32 at offset 0 (header word 1 + 2 * 32 = 65). -/
def exC5Mem : Mem := fun i => if i = 4 then 65 else 0

/-- Concrete state for the C5 witness: a 32-byte region completely occupied
by one used block, so any allocation must overflow into a child. -/
def exC5Arena : Arena := Arena.mk exC5Mem 0 32 32 0 none

/-- Concrete region contents for the C4 witness: three free blocks of size
16 at offsets 0, 16 and 32 (each header word 2 * 16 = 32, free bit 0). -/
def exMergeMem : Mem :=
  fun i => if i = 4 then 32 else if i = 20 then 32 else if i = 36 then 32 else 0

/-- Concrete state for the C4 witness: a 1024-byte region whose first 48
bytes hold three adjacent free blocks. -/
def exMergeArena : Arena := Arena.mk exMergeMem 1024 1024 48 0 none

/-- Concrete state for the C6 amended witness: a 1024-byte arena holding one
used 112-byte block (the result of allocating 100 bytes). -/
def exC6w : Arena := (arena_alloc exFresh1024 100 zeroMem 0).2

/-- Concrete run for C3: allocate 100 bytes from a fresh 1024-byte arena,
free the block, then allocate 8 bytes; the second allocation reuses the
112-byte free block and splits it. -/
def exC3Final : Except AErr APtr × Arena :=
  arena_alloc (arena_free (arena_alloc exFresh1024 100 zeroMem 0).2
    (some (APtr.mk 0 8))) 8 zeroMem 0

/-!  Theorems.  First the byte-level laws of the memory codec, then the
unfolding lemmas for the allocator's control flow, then the tiling
machinery, and finally one theorem per claim. -/

theorem byteAt_wByte_eq (m : Mem) (i v : Nat) : byteAt (wByte m i v) i = v % 256 := by
  have h : wByte m i v i = v % 256 := by
    simp [wByte]
  simp only [byteAt, h]
  omega

theorem byteAt_wByte_ne (m : Mem) (i v j : Nat) (h : j ≠ i) :
    byteAt (wByte m i v) j = byteAt m j := by
  simp only [byteAt, wByte, if_neg h]

theorem wByte_out (m : Mem) (i v j : Nat) (h : j ≠ i) : wByte m i v j = m j := by
  simp only [wByte, if_neg h]

theorem wWord_out (m : Mem) (i v j : Nat) (h : j < i ∨ i + 4 ≤ j) :
    wWord m i v j = m j := by
  simp only [wWord, wByte]
  rw [if_neg (by omega), if_neg (by omega), if_neg (by omega), if_neg (by omega)]

theorem byteAt_wWord_out (m : Mem) (i v j : Nat) (h : j < i ∨ i + 4 ≤ j) :
    byteAt (wWord m i v) j = byteAt m j := by
  simp only [byteAt, wWord_out m i v j h]

theorem rWord_congr (m m2 : Mem) (i : Nat)
    (h : ∀ j, i ≤ j → j < i + 4 → byteAt m2 j = byteAt m j) :
    rWord m2 i = rWord m i := by
  simp only [rWord]
  rw [h i (by omega) (by omega), h (i + 1) (by omega) (by omega),
    h (i + 2) (by omega) (by omega), h (i + 3) (by omega) (by omega)]

theorem rWord_wWord_eq (m : Mem) (i v : Nat) : rWord (wWord m i v) i = v % U32 := by
  have e0 : byteAt (wWord m i v) i = v % 256 := by
    simp only [wWord]
    rw [byteAt_wByte_ne _ _ _ _ (by omega), byteAt_wByte_ne _ _ _ _ (by omega),
      byteAt_wByte_ne _ _ _ _ (by omega), byteAt_wByte_eq]
  have e1 : byteAt (wWord m i v) (i + 1) = v / 256 % 256 := by
    simp only [wWord]
    rw [byteAt_wByte_ne _ _ _ _ (by omega), byteAt_wByte_ne _ _ _ _ (by omega),
      byteAt_wByte_eq]
  have e2 : byteAt (wWord m i v) (i + 2) = v / 65536 % 256 := by
    simp only [wWord]
    rw [byteAt_wByte_ne _ _ _ _ (by omega), byteAt_wByte_eq]
  have e3 : byteAt (wWord m i v) (i + 3) = v / 16777216 % 256 := by
    simp only [wWord]
    rw [byteAt_wByte_eq]
  simp only [rWord, e0, e1, e2, e3, U32]
  omega

theorem rWord_wWord_out (m : Mem) (i v j : Nat) (h : j + 4 ≤ i ∨ i + 4 ≤ j) :
    rWord (wWord m i v) j = rWord m j := by
  refine rWord_congr _ _ _ (fun k hk1 hk2 => ?_)
  exact byteAt_wWord_out m i v k (by omega)

theorem bzero_out (m : Mem) (i : Nat) :
    ∀ n j, (j < i ∨ i + n ≤ j) → bzero m i n j = m j := by
  intro n
  induction n with
  | zero => intro j _; rfl
  | succ k ih =>
    intro j h
    simp only [bzero]
    rw [wByte_out _ _ _ _ (by omega)]
    exact ih j (by omega)

theorem bzero_in (m : Mem) (i : Nat) :
    ∀ n j, i ≤ j → j < i + n → bzero m i n j = 0 := by
  intro n
  induction n with
  | zero => intro j h1 h2; omega
  | succ k ih =>
    intro j h1 h2
    simp only [bzero]
    by_cases hj : j = i + k
    · simp only [wByte, if_pos hj]
    · rw [wByte_out _ _ _ _ hj]
      exact ih j h1 (by omega)

theorem byteAt_bzero_out (m : Mem) (i n j : Nat) (h : j < i ∨ i + n ≤ j) :
    byteAt (bzero m i n) j = byteAt m j := by
  simp only [byteAt, bzero_out m i n j h]

theorem byteAt_bzero_in (m : Mem) (i n j : Nat) (h1 : i ≤ j) (h2 : j < i + n) :
    byteAt (bzero m i n) j = 0 := by
  simp only [byteAt, bzero_in m i n j h1 h2]

theorem rWord_bzero_out (m : Mem) (i n j : Nat) (h : j + 4 ≤ i ∨ i + n ≤ j) :
    rWord (bzero m i n) j = rWord m j := by
  refine rWord_congr _ _ _ (fun k hk1 hk2 => ?_)
  exact byteAt_bzero_out m i n k (by omega)

theorem rWord_bzero_in (m : Mem) (i n j : Nat) (h1 : i ≤ j) (h2 : j + 4 ≤ i + n) :
    rWord (bzero m i n) j = 0 := by
  simp only [rWord]
  rw [byteAt_bzero_in m i n j (by omega) (by omega),
    byteAt_bzero_in m i n (j + 1) (by omega) (by omega),
    byteAt_bzero_in m i n (j + 2) (by omega) (by omega),
    byteAt_bzero_in m i n (j + 3) (by omega) (by omega)]

theorem rWord_lt (m : Mem) (i : Nat) : rWord m i < U32 := by
  simp only [rWord, byteAt, U32]
  omega

theorem rWord_eq_of_apply (m m2 : Mem) (i : Nat)
    (h : ∀ j, i ≤ j → j < i + 4 → m2 j = m j) : rWord m2 i = rWord m i := by
  refine rWord_congr _ _ _ (fun k hk1 hk2 => ?_)
  simp only [byteAt, h k hk1 hk2]

/-- m2 agrees with m outside the byte range from lo to hi. -/
def WritesIn (m m2 : Mem) (lo hi : Nat) : Prop :=
  ∀ j, j < lo ∨ hi ≤ j → m2 j = m j

theorem WritesIn.mono {m m2 : Mem} {lo hi lo2 hi2 : Nat}
    (hw : WritesIn m m2 lo hi) (h1 : lo2 ≤ lo) (h2 : hi ≤ hi2) :
    WritesIn m m2 lo2 hi2 := by
  intro j hj
  exact hw j (by omega)

theorem WritesIn.trans {m m2 m3 : Mem} {lo hi : Nat}
    (h1 : WritesIn m m2 lo hi) (h2 : WritesIn m2 m3 lo hi) :
    WritesIn m m3 lo hi := by
  intro j hj
  rw [h2 j hj, h1 j hj]

theorem writesIn_wWord (m : Mem) (i v : Nat) : WritesIn m (wWord m i v) i (i + 4) := by
  intro j hj
  exact wWord_out m i v j hj

theorem writesIn_bzero (m : Mem) (i n : Nat) : WritesIn m (bzero m i n) i (i + n) := by
  intro j hj
  exact bzero_out m i n j hj

theorem writesIn_set_bs (m : Mem) (dp v : Nat) (h4 : 4 ≤ dp) :
    WritesIn m (arena_set_block_size m dp v) (dp - 4) dp := by
  simpa using (writesIn_wWord m (dp - 4) _).mono (le_refl _) (by omega)

theorem writesIn_set_used (m : Mem) (dp : Nat) (u : Bool) (h4 : 4 ≤ dp) :
    WritesIn m (arena_set_block_used m dp u) (dp - 4) dp := by
  simpa using (writesIn_wWord m (dp - 4) _).mono (le_refl _) (by omega)

theorem writesIn_set_ds (m : Mem) (dp v : Nat) (h8 : 8 ≤ dp) :
    WritesIn m (arena_set_data_size m dp v) (dp - 8) (dp - 4) := by
  simpa using (writesIn_wWord m (dp - 8) _).mono (le_refl _) (by omega)

theorem rWord_writesIn {m m2 : Mem} {lo hi : Nat} (hw : WritesIn m m2 lo hi)
    (j : Nat) (h : j + 4 ≤ lo ∨ hi ≤ j) : rWord m2 j = rWord m j := by
  refine rWord_eq_of_apply _ _ _ (fun k hk1 hk2 => ?_)
  exact hw k (by omega)

theorem gbs_writesIn {m m2 : Mem} {lo hi : Nat} (hw : WritesIn m m2 lo hi)
    (dp : Nat) (h4 : 4 ≤ dp) (h : dp ≤ lo ∨ hi + 4 ≤ dp) :
    arena_get_block_size m2 dp = arena_get_block_size m dp := by
  simp only [arena_get_block_size]
  rw [rWord_writesIn hw (dp - 4) (by omega)]

theorem free_writesIn {m m2 : Mem} {lo hi : Nat} (hw : WritesIn m m2 lo hi)
    (dp : Nat) (h4 : 4 ≤ dp) (h : dp ≤ lo ∨ hi + 4 ≤ dp) :
    arena_is_block_free m2 dp = arena_is_block_free m dp := by
  simp only [arena_is_block_free]
  rw [rWord_writesIn hw (dp - 4) (by omega)]

theorem gds_writesIn {m m2 : Mem} {lo hi : Nat} (hw : WritesIn m m2 lo hi)
    (dp : Nat) (h8 : 8 ≤ dp) (h : dp ≤ lo + 4 ∨ hi + 8 ≤ dp) :
    arena_get_data_size m2 dp = arena_get_data_size m dp := by
  simp only [arena_get_data_size]
  rw [rWord_writesIn hw (dp - 8) (by omega)]

theorem gbs_set_bs (m : Mem) (dp v : Nat) :
    arena_get_block_size (arena_set_block_size m dp v) dp = v % U31 := by
  simp only [arena_get_block_size, arena_set_block_size, rWord_wWord_eq]
  have h1 : rWord m (dp - 4) % 2 < 2 := Nat.mod_lt _ (by omega)
  have h2 : v % U31 < U31 := Nat.mod_lt _ (by simp [U31])
  simp only [U31, U32] at *
  omega

theorem free_set_bs (m : Mem) (dp v : Nat) :
    arena_is_block_free (arena_set_block_size m dp v) dp = arena_is_block_free m dp := by
  simp only [arena_is_block_free, arena_set_block_size, rWord_wWord_eq]
  rw [decide_eq_decide]
  have h2 : v % U31 < U31 := Nat.mod_lt _ (by simp [U31])
  simp only [U31, U32] at *
  omega

theorem gbs_set_used (m : Mem) (dp : Nat) (u : Bool) :
    arena_get_block_size (arena_set_block_used m dp u) dp = arena_get_block_size m dp := by
  simp only [arena_get_block_size, arena_set_block_used, rWord_wWord_eq]
  have h1 : rWord m (dp - 4) < U32 := rWord_lt m (dp - 4)
  cases u <;> simp only [if_pos, if_neg, Bool.false_eq_true, ite_true, ite_false] <;>
    simp only [U32] at * <;> omega

theorem free_set_used (m : Mem) (dp : Nat) (u : Bool) :
    arena_is_block_free (arena_set_block_used m dp u) dp = !u := by
  simp only [arena_is_block_free, arena_set_block_used, rWord_wWord_eq]
  have h1 : rWord m (dp - 4) < U32 := rWord_lt m (dp - 4)
  cases u
  · simp only [Bool.not_false, decide_eq_true_eq]
    simp only [ite_false, Bool.false_eq_true, U32] at *
    omega
  · simp only [Bool.not_true, decide_eq_false_iff_not]
    simp only [ite_true, U32] at *
    omega

theorem gds_set_ds (m : Mem) (dp v : Nat) :
    arena_get_data_size (arena_set_data_size m dp v) dp = v % U32 := by
  simp only [arena_get_data_size, arena_set_data_size, rWord_wWord_eq, U32]
  omega

theorem gds_set_bs (m : Mem) (dp v : Nat) (h8 : 8 ≤ dp) :
    arena_get_data_size (arena_set_block_size m dp v) dp = arena_get_data_size m dp :=
  gds_writesIn (writesIn_set_bs m dp v (by omega)) dp h8 (by omega)

theorem gds_set_used (m : Mem) (dp : Nat) (u : Bool) (h8 : 8 ≤ dp) :
    arena_get_data_size (arena_set_block_used m dp u) dp = arena_get_data_size m dp :=
  gds_writesIn (writesIn_set_used m dp u (by omega)) dp h8 (by omega)

theorem gbs_set_ds (m : Mem) (dp v : Nat) (h8 : 8 ≤ dp) :
    arena_get_block_size (arena_set_data_size m dp v) dp = arena_get_block_size m dp :=
  gbs_writesIn (writesIn_set_ds m dp v h8) dp (by omega) (by omega)

theorem free_set_ds (m : Mem) (dp v : Nat) (h8 : 8 ≤ dp) :
    arena_is_block_free (arena_set_data_size m dp v) dp = arena_is_block_free m dp :=
  free_writesIn (writesIn_set_ds m dp v h8) dp (by omega) (by omega)

theorem aalloc_succ (fuel : Nat) (a : Arena) (size : Nat) (fresh : Mem) (junk : Nat) :
    aalloc (fuel + 1) a size fresh junk = aallocStep (aalloc fuel) a size fresh junk := rfl

theorem arena_alloc_unfold (a : Arena) (size : Nat) (fresh : Mem) (junk : Nat) :
    arena_alloc a size fresh junk =
      aallocStep (aalloc (chainLen a + 1)) a size fresh junk := rfl

theorem aallocStep_size0 (rec : Arena → Nat → Mem → Nat → Except AErr APtr × Arena)
    (a : Arena) (size : Nat) (fresh : Mem) (junk : Nat) (h : size % U64 = 0) :
    aallocStep rec a size fresh junk = (Except.error AErr.invalidSize, a) := by
  simp only [aallocStep, if_pos h]

theorem aallocStep_tooLarge (rec : Arena → Nat → Mem → Nat → Except AErr APtr × Arena)
    (a : Arena) (size : Nat) (fresh : Mem) (junk : Nat)
    (h1 : ¬size % U64 = 0) (h2 : a.size < totalSizeOf size) :
    aallocStep rec a size fresh junk = (Except.error AErr.allocTooLarge, a) := by
  simp only [aallocStep, if_neg h1, if_pos h2]

theorem aallocStep_blockTooBig (rec : Arena → Nat → Mem → Nat → Except AErr APtr × Arena)
    (a : Arena) (size : Nat) (fresh : Mem) (junk : Nat)
    (h1 : ¬size % U64 = 0) (h2 : ¬a.size < totalSizeOf size)
    (h3 : MAX_BLOCK_SIZE < totalSizeOf size) :
    aallocStep rec a size fresh junk = (Except.error AErr.blockTooLarge, a) := by
  simp only [aallocStep, if_neg h1, if_neg h2, if_pos h3]

theorem aallocStep_reuse (rec : Arena → Nat → Mem → Nat → Except AErr APtr × Arena)
    (a : Arena) (size : Nat) (fresh : Mem) (junk : Nat) (fb : Nat)
    (h1 : ¬size % U64 = 0) (h2 : ¬a.size < totalSizeOf size)
    (h3 : ¬MAX_BLOCK_SIZE < totalSizeOf size)
    (hf : arena_find_free_block a (totalSizeOf size) = some fb) :
    aallocStep rec a size fresh junk = allocReuse a size (totalSizeOf size) fb := by
  simp only [aallocStep, if_neg h1, if_neg h2, if_neg h3, hf]

theorem aallocStep_bump (rec : Arena → Nat → Mem → Nat → Except AErr APtr × Arena)
    (a : Arena) (size : Nat) (fresh : Mem) (junk : Nat)
    (h1 : ¬size % U64 = 0) (h2 : ¬a.size < totalSizeOf size)
    (h3 : ¬MAX_BLOCK_SIZE < totalSizeOf size)
    (hf : arena_find_free_block a (totalSizeOf size) = none)
    (hov : ¬a.size < (a.offset + totalSizeOf size) % U64) :
    aallocStep rec a size fresh junk = allocBump a size (totalSizeOf size) := by
  simp only [aallocStep, if_neg h1, if_neg h2, if_neg h3, hf, if_neg hov]

theorem aallocStep_delegate_some (rec : Arena → Nat → Mem → Nat → Except AErr APtr × Arena)
    (a : Arena) (size : Nat) (fresh : Mem) (junk : Nat) (c : Arena)
    (h1 : ¬size % U64 = 0) (h2 : ¬a.size < totalSizeOf size)
    (h3 : ¬MAX_BLOCK_SIZE < totalSizeOf size)
    (hf : arena_find_free_block a (totalSizeOf size) = none)
    (hov : a.size < (a.offset + totalSizeOf size) % U64)
    (hc : a.child = some c) :
    aallocStep rec a size fresh junk =
      (Except.map (fun p => APtr.mk (p.depth + 1) p.off) (rec c size fresh junk).1,
        setChild a (some (rec c size fresh junk).2)) := by
  simp only [aallocStep, if_neg h1, if_neg h2, if_neg h3, hf, if_pos hov, hc]

theorem aallocStep_delegate_none (rec : Arena → Nat → Mem → Nat → Except AErr APtr × Arena)
    (a : Arena) (size : Nat) (fresh : Mem) (junk : Nat) (c : Arena)
    (h1 : ¬size % U64 = 0) (h2 : ¬a.size < totalSizeOf size)
    (h3 : ¬MAX_BLOCK_SIZE < totalSizeOf size)
    (hf : arena_find_free_block a (totalSizeOf size) = none)
    (hov : a.size < (a.offset + totalSizeOf size) % U64)
    (hc : a.child = none) (hcr : arena_create a.size fresh junk = some c) :
    aallocStep rec a size fresh junk =
      (Except.map (fun p => APtr.mk (p.depth + 1) p.off) (rec c size fresh junk).1,
        setChild a (some (rec c size fresh junk).2)) := by
  simp only [aallocStep, if_neg h1, if_neg h2, if_neg h3, hf, if_pos hov, hc, hcr]

/-- C10: arena_alloc invoked on a null arena handle returns the error (null)
result at once, producing and touching no arena state, even though the
spec's precondition list for alloc never mentions a null handle. -/
theorem c10_null_arena_alloc (size : Nat) (fresh : Mem) (junk : Nat) :
    arena_allocH none size fresh junk = (Except.error AErr.invalidArena, none) := rfl

/-- C7 (code behavior at the failing input): arena_create rejects size 0 and
MAX_ARENA_SIZE + 1 without building anything, and on a valid size builds a
node with offset 0, space = size, no child and a buffer of that size - but
it never initializes free_count, so the node keeps the junk byte left by
malloc (here 5) instead of the 0 the claim requires. -/
theorem c7_create_code_behavior :
    arena_create 0 zeroMem 5 = none ∧
    arena_create (MAX_ARENA_SIZE + 1) zeroMem 5 = none ∧
    arena_create 16 zeroMem 5 = some (Arena.mk zeroMem 16 16 0 5 none) := by
  exact ⟨rfl, rfl, rfl⟩

/-- C8 counterexample: on the 1024-byte arena cex8Arena (as built by
arena_create), the request of 2^31 bytes has aligned total size above
MAX_BLOCK_SIZE, yet arena_alloc reports the allocation-too-large failure
(the region-size check runs first), not BlockTooLarge as the claim states. -/
theorem c8_counterexample :
    MAX_BLOCK_SIZE < totalSizeOf 2147483648 ∧
    (arena_alloc cex8Arena 2147483648 zeroMem 0).1 = Except.error AErr.allocTooLarge ∧
    ¬(arena_alloc cex8Arena 2147483648 zeroMem 0).1 = Except.error AErr.blockTooLarge := by
  refine ⟨by decide, rfl, ?_⟩
  intro h
  rw [show (arena_alloc cex8Arena 2147483648 zeroMem 0).1 =
    Except.error AErr.allocTooLarge from rfl] at h
  exact AErr.noConfusion (Except.error.inj h)

/-- C8 amended: a request whose aligned total size exceeds MAX_BLOCK_SIZE
fails and leaves the arena state unchanged, but on any arena within
MAX_ARENA_SIZE the failure is the allocation-too-large one, because the
region-size check precedes the block-size check and such a total always
exceeds the region size too; arena_alloc with size 0 fails with InvalidSize
without mutating state. -/
theorem c8_oversized_request_amended (a : Arena) (size : Nat) (fresh : Mem) (junk : Nat)
    (hsz : a.size ≤ MAX_ARENA_SIZE) (hbig : MAX_BLOCK_SIZE < totalSizeOf size) :
    arena_alloc a size fresh junk = (Except.error AErr.allocTooLarge, a) ∧
    arena_alloc a 0 fresh junk = (Except.error AErr.invalidSize, a) := by
  constructor
  · have h1 : ¬size % U64 = 0 := by
      intro h0
      have he : totalSizeOf size = 16 := by
        simp only [totalSizeOf, h0]
        decide
      rw [he] at hbig
      simp only [MAX_BLOCK_SIZE, U31] at hbig
      omega
    have h2 : a.size < totalSizeOf size := by
      simp only [MAX_ARENA_SIZE] at hsz
      simp only [MAX_BLOCK_SIZE, U31] at hbig
      omega
    rw [arena_alloc_unfold, aallocStep_tooLarge _ _ _ _ _ h1 h2]
  · have h0 : (0 : Nat) % U64 = 0 := Nat.zero_mod _
    rw [arena_alloc_unfold, aallocStep_size0 _ _ _ _ _ h0]

/-- Witness for the amended C8 theorem at the concrete 1024-byte arena and
the request of 2^31 bytes. -/
theorem c8_oversized_request_amended_witness :
    arena_alloc cex8Arena 2147483648 zeroMem 0 =
      (Except.error AErr.allocTooLarge, cex8Arena) ∧
    arena_alloc cex8Arena 0 zeroMem 0 = (Except.error AErr.invalidSize, cex8Arena) :=
  c8_oversized_request_amended cex8Arena 2147483648 zeroMem 0 (by decide) (by decide)

/-- C3 (code behavior at the failing input): after allocating 100 bytes from
a fresh 1024-byte arena, freeing that block, and allocating 8 bytes, the
8-byte request is served by splitting the 112-byte free block: the reused
block is shrunk to block_size 16 and marked used and the 96-byte tail
becomes a free block with data_size 0 - but the reused block's data_size is
left at the stale value 0 instead of being set to the requested size 8,
because the split branch of arena_alloc never calls arena_set_data_size on
the found block. -/
theorem c3_split_code_behavior :
    exC3Final.1 = Except.ok (APtr.mk 0 8) ∧
    arena_get_block_size exC3Final.2.memory 8 = 16 ∧
    arena_is_block_free exC3Final.2.memory 8 = false ∧
    arena_get_data_size exC3Final.2.memory 8 = 0 ∧
    arena_get_block_size exC3Final.2.memory 24 = 96 ∧
    arena_is_block_free exC3Final.2.memory 24 = true ∧
    arena_get_data_size exC3Final.2.memory 24 = 0 := by
  exact ⟨rfl, rfl, rfl, rfl, rfl, rfl, rfl⟩

theorem regionAt_succ_some (m : Mem) (sp sz off fc : Nat) (c : Arena) (d : Nat) :
    regionAt (Arena.mk m sp sz off fc (some c)) (d + 1) = regionAt c d := rfl

theorem regionAt_succ_none (m : Mem) (sp sz off fc : Nat) (d : Nat) :
    regionAt (Arena.mk m sp sz off fc none) (d + 1) = none := rfl

/-- C9: arena_reset sets offset = 0 and space = size on every node of the
chain, leaves every region's byte contents untouched (in particular it does
not zero the backing buffers), and is idempotent. -/
theorem c9_reset_idempotent : ∀ a : Arena,
    allNodes (fun n => n.offset = 0 ∧ n.space = n.size) (arena_reset a) ∧
    (∀ d, regionMem (arena_reset a) d = regionMem a d) ∧
    arena_reset (arena_reset a) = arena_reset a
  | .mk m sp sz off fc none => by
    refine ⟨?_, ?_, rfl⟩
    · simp [arena_reset, allNodes, Arena.offset, Arena.space, Arena.size]
    · intro d
      cases d with
      | zero => rfl
      | succ d2 => rfl
  | .mk m sp sz off fc (some c) => by
    obtain ⟨ih1, ih2, ih3⟩ := c9_reset_idempotent c
    refine ⟨?_, ?_, ?_⟩
    · simp [arena_reset, allNodes, Arena.offset, Arena.space, Arena.size]
      exact ih1
    · intro d
      cases d with
      | zero => rfl
      | succ d2 =>
        show regionMem (arena_reset c) d2 = regionMem c d2
        exact ih2 d2
    · show Arena.mk m sz sz 0 fc (some (arena_reset (arena_reset c)))
        = Arena.mk m sz sz 0 fc (some (arena_reset c))
      rw [ih3]

theorem BlocksAt_le {m : Mem} : ∀ {o e : Nat} {L : List (Nat × Bool)},
    BlocksAt m o e L → o ≤ e := by
  intro o e L h
  induction h with
  | nil => exact le_refl _
  | cons o e s f L hs hpos hdvd hf hrest ih => omega

theorem BlocksAt_sum {m : Mem} : ∀ {o e : Nat} {L : List (Nat × Bool)},
    BlocksAt m o e L → o + sizeSum L = e := by
  intro o e L h
  induction h with
  | nil => simp [sizeSum]
  | cons o e s f L hs hpos hdvd hf hrest ih =>
    simp only [sizeSum]
    omega

theorem BlocksAt_length {m : Mem} : ∀ {o e : Nat} {L : List (Nat × Bool)},
    BlocksAt m o e L → L.length ≤ e - o := by
  intro o e L h
  induction h with
  | nil => simp
  | cons o e s f L hs hpos hdvd hf hrest ih =>
    have := BlocksAt_le hrest
    simp only [List.length_cons]
    omega

theorem BlocksAt_append {m : Mem} : ∀ {a b : Nat} {L1 : List (Nat × Bool)},
    BlocksAt m a b L1 → ∀ {c : Nat} {L2 : List (Nat × Bool)},
    BlocksAt m b c L2 → BlocksAt m a c (L1 ++ L2) := by
  intro a b L1 h1
  induction h1 with
  | nil =>
    intro c L2 h2
    simpa using h2
  | cons o e s f L hs hpos hdvd hf hrest ih =>
    intro c L2 h2
    exact BlocksAt.cons o c s f (L ++ L2) hs hpos hdvd hf (ih h2)

theorem BlocksAt_congr {m m2 : Mem} : ∀ {o e : Nat} {L : List (Nat × Bool)},
    BlocksAt m o e L → (∀ j, o ≤ j → j < e → m2 j = m j) → BlocksAt m2 o e L := by
  intro o e L h
  induction h with
  | nil =>
    intro _
    exact BlocksAt.nil _
  | cons o e s f L hs hpos hdvd hf hrest ih =>
    intro hagree
    have hoe : o + s ≤ e := BlocksAt_le hrest
    have h16 : 16 ≤ s := Nat.le_of_dvd hpos hdvd
    have hw : rWord m2 (o + 4) = rWord m (o + 4) :=
      rWord_eq_of_apply _ _ _ (fun k hk1 hk2 => hagree k (by omega) (by omega))
    have h84 : o + 8 - 4 = o + 4 := by omega
    refine BlocksAt.cons o e s f L ?_ hpos hdvd ?_
      (ih (fun j hj1 hj2 => hagree j (by omega) hj2))
    · simpa only [arena_get_block_size, h84, hw] using hs
    · simpa only [arena_is_block_free, h84, hw] using hf

theorem BlocksAt_writesIn {m m2 : Mem} {lo hi o e : Nat} {L : List (Nat × Bool)}
    (h : BlocksAt m o e L) (hw : WritesIn m m2 lo hi) (hout : hi ≤ o ∨ e ≤ lo) :
    BlocksAt m2 o e L :=
  BlocksAt_congr h (fun j hj1 hj2 => hw j (by omega))

theorem findLoop_some {m : Mem} {e total : Nat} :
    ∀ {L : List (Nat × Bool)} {o fuel fb : Nat}, BlocksAt m o e L → L.length < fuel →
      findLoop e total fuel m o = some fb →
      ∃ L1 s L2, L = L1 ++ (s, true) :: L2 ∧
        BlocksAt m o fb L1 ∧ BlocksAt m fb e ((s, true) :: L2) ∧ total ≤ s := by
  intro L
  induction L with
  | nil =>
    intro o fuel fb hb hfuel hfind
    cases hb
    match fuel, hfuel with
    | k + 1, _ =>
      simp only [findLoop] at hfind
      rw [if_neg (lt_irrefl e)] at hfind
      exact Option.noConfusion hfind
  | cons hd tl ih =>
    intro o fuel fb hb hfuel hfind
    cases hb with
    | cons _ _ s f _ hs hpos hdvd hf hrest =>
      have hoe : o + s ≤ e := BlocksAt_le hrest
      match fuel, hfuel with
      | k + 1, hfuel2 =>
        rw [findLoop, if_pos (by omega : o < e)] at hfind
        simp only [hs, hf] at hfind
        by_cases hcond : f = true ∧ total ≤ s
        · rw [if_pos hcond] at hfind
          obtain ⟨hft, hts⟩ := hcond
          subst hft
          have hfb : fb = o := (Option.some.inj hfind).symm
          subst hfb
          exact ⟨[], s, tl, by simp, BlocksAt.nil _,
            BlocksAt.cons _ _ s true tl hs hpos hdvd hf hrest, hts⟩
        · rw [if_neg hcond] at hfind
          have htl : tl.length < k := by
            simp only [List.length_cons] at hfuel2
            omega
          obtain ⟨L1, s2, L2, heq, hb1, hb2, hts⟩ := ih hrest htl hfind
          refine ⟨(s, f) :: L1, s2, L2, by simp [heq], ?_, hb2, hts⟩
          exact BlocksAt.cons o fb s f L1 hs hpos hdvd hf hb1

theorem allocBump_spec (a : Arena) (size total : Nat)
    (h16 : 16 ≤ total) (hU : a.offset + total < U31) :
    (allocBump a size total).1 = Except.ok (APtr.mk 0 (a.offset + 8)) ∧
    (allocBump a size total).2.offset = a.offset + total ∧
    (allocBump a size total).2.space = usub a.space total ∧
    (allocBump a size total).2.size = a.size ∧
    (allocBump a size total).2.free_count = a.free_count ∧
    (allocBump a size total).2.child = a.child ∧
    arena_get_block_size (allocBump a size total).2.memory (a.offset + 8) = total ∧
    arena_is_block_free (allocBump a size total).2.memory (a.offset + 8) = false ∧
    arena_get_data_size (allocBump a size total).2.memory (a.offset + 8) = size % U32 ∧
    (∀ i, a.offset + 8 ≤ i → i < a.offset + total → (allocBump a size total).2.memory i = 0) ∧
    WritesIn a.memory (allocBump a size total).2.memory a.offset (a.offset + total) := by
  obtain ⟨m, sp, sz, off, fc, ch⟩ := a
  simp only [Arena.memory, Arena.space, Arena.size, Arena.offset, Arena.free_count,
    Arena.child] at *
  have hUlt : off + total < U64 := by
    simp only [U31, U64] at hU ⊢
    omega
  have hmod : (off + total) % U64 = off + total := Nat.mod_eq_of_lt hUlt
  have htmod : total % U31 = total := Nat.mod_eq_of_lt (by omega)
  have h4 : 4 ≤ off + 8 := by omega
  have h8 : 8 ≤ off + 8 := by omega
  have hM1 : WritesIn m (bzero m off total) off (off + total) := writesIn_bzero m off total
  set M1 : Mem := bzero m off total with hM1d
  have hM2 : WritesIn M1 (arena_set_block_size M1 (off + 8) total) (off + 4) (off + 8) := by
    simpa [show off + 8 - 4 = off + 4 from by omega] using
      writesIn_set_bs M1 (off + 8) total h4
  set M2 : Mem := arena_set_block_size M1 (off + 8) total with hM2d
  have hM3 : WritesIn M2 (arena_set_block_used M2 (off + 8) true) (off + 4) (off + 8) := by
    simpa [show off + 8 - 4 = off + 4 from by omega] using
      writesIn_set_used M2 (off + 8) true h4
  set M3 : Mem := arena_set_block_used M2 (off + 8) true with hM3d
  have hM4 : WritesIn M3 (arena_set_data_size M3 (off + 8) size) off (off + 4) := by
    simpa [show off + 8 - 8 = off from by omega, show off + 8 - 4 = off + 4 from by omega] using
      writesIn_set_ds M3 (off + 8) size h8
  set M4 : Mem := arena_set_data_size M3 (off + 8) size with hM4d
  have hwAll : WritesIn m M4 off (off + total) := by
    refine ((hM1.trans (hM2.mono (by omega) (by omega))).trans
      (hM3.mono (by omega) (by omega))).trans (hM4.mono (by omega) (by omega))
  have hfreeM1 : rWord M1 (off + 8 - 4) = 0 := by
    rw [show off + 8 - 4 = off + 4 from by omega]
    exact rWord_bzero_in m off total (off + 4) (by omega) (by omega)
  have hgbs2 : arena_get_block_size M2 (off + 8) = total := by
    rw [hM2d, gbs_set_bs, htmod]
  have hfree2 : arena_is_block_free M2 (off + 8) = true := by
    rw [hM2d]
    rw [free_set_bs]
    simp only [arena_is_block_free, hfreeM1]
    decide
  have hgbs3 : arena_get_block_size M3 (off + 8) = total := by
    rw [hM3d, gbs_set_used, hgbs2]
  have hfree3 : arena_is_block_free M3 (off + 8) = false := by
    rw [hM3d, free_set_used]
    decide
  have hgbs4 : arena_get_block_size M4 (off + 8) = total := by
    rw [hM4d, gbs_set_ds _ _ _ h8, hgbs3]
  have hfree4 : arena_is_block_free M4 (off + 8) = false := by
    rw [hM4d, free_set_ds _ _ _ h8, hfree3]
  have hgds4 : arena_get_data_size M4 (off + 8) = size % U32 := by
    rw [hM4d, gds_set_ds]
  refine ⟨rfl, hmod, rfl, rfl, rfl, rfl, hgbs4, hfree4, hgds4, ?_, hwAll⟩
  intro i hi1 hi2
  show M4 i = 0
  have e4 : M4 i = M3 i := hM4 i (by omega)
  have e3 : M3 i = M2 i := hM3 i (by omega)
  have e2 : M2 i = M1 i := hM2 i (by omega)
  rw [e4, e3, e2, hM1d]
  exact bzero_in m off total i (by omega) (by omega)

theorem allocBump_blocks {a : Arena} {size total : Nat} {L : List (Nat × Bool)}
    (hb : BlocksAt a.memory 0 a.offset L) (h16 : 16 ≤ total) (hdvd : 16 ∣ total)
    (hU : a.offset + total < U31) :
    BlocksAt (allocBump a size total).2.memory 0 (a.offset + total) (L ++ [(total, false)]) := by
  obtain ⟨-, -, -, -, -, -, hgbs, hfree, -, -, hw⟩ := allocBump_spec a size total h16 hU
  have hpre : BlocksAt (allocBump a size total).2.memory 0 a.offset L :=
    BlocksAt_writesIn hb hw (by omega)
  refine BlocksAt_append hpre ?_
  exact BlocksAt.cons a.offset (a.offset + total) total false [] hgbs (by omega) hdvd hfree
    (BlocksAt.nil _)

theorem allocBump_zero_blocks {a : Arena} {size : Nat} {L : List (Nat × Bool)}
    (hb : BlocksAt a.memory 0 a.offset L) (hoffU : a.offset < U64) :
    (allocBump a size 0).2.offset = a.offset ∧
    BlocksAt (allocBump a size 0).2.memory 0 a.offset L := by
  obtain ⟨m, sp, sz, off, fc, ch⟩ := a
  simp only [Arena.memory, Arena.offset] at *
  have h4 : 4 ≤ off + 8 := by omega
  have h8 : 8 ≤ off + 8 := by omega
  set M1 : Mem := bzero m off 0 with hM1d
  set M2 : Mem := arena_set_block_size M1 (off + 8) 0 with hM2d
  set M3 : Mem := arena_set_block_used M2 (off + 8) true with hM3d
  set M4 : Mem := arena_set_data_size M3 (off + 8) size with hM4d
  have hmem : (allocBump (Arena.mk m sp sz off fc ch) size 0).2.memory = M4 := rfl
  have w1 : WritesIn m M1 off (off + 8) := (writesIn_bzero m off 0).mono (le_refl _) (by omega)
  have w2 : WritesIn M1 M2 off (off + 8) :=
    (writesIn_set_bs M1 (off + 8) 0 h4).mono (by omega) (by omega)
  have w3 : WritesIn M2 M3 off (off + 8) :=
    (writesIn_set_used M2 (off + 8) true h4).mono (by omega) (by omega)
  have w4 : WritesIn M3 M4 off (off + 8) :=
    (writesIn_set_ds M3 (off + 8) size h8).mono (by omega) (by omega)
  have hw : WritesIn m M4 off (off + 8) := ((w1.trans w2).trans w3).trans w4
  constructor
  · show (off + 0) % U64 = off
    simp only [Nat.add_zero]
    exact Nat.mod_eq_of_lt hoffU
  · show BlocksAt M4 0 off L
    exact BlocksAt_writesIn hb hw (by omega)

theorem alignUp_const : alignUp (ARENA_ALIGNMENT + metaSize) = 32 := rfl

theorem allocReuse_blocks {a : Arena} {size total fb s : Nat} {L1 L2 : List (Nat × Bool)}
    (hb1 : BlocksAt a.memory 0 fb L1)
    (hb2 : BlocksAt a.memory fb a.offset ((s, true) :: L2))
    (hdvd : 16 ∣ total) (hts : total ≤ s) (hsU : a.offset < U31) :
    (allocReuse a size total fb).1 = Except.ok (APtr.mk 0 (fb + 8)) ∧
    (allocReuse a size total fb).2.offset = a.offset ∧
    (allocReuse a size total fb).2.size = a.size ∧
    (allocReuse a size total fb).2.free_count = a.free_count ∧
    (allocReuse a size total fb).2.child = a.child ∧
    ∃ L3, BlocksAt (allocReuse a size total fb).2.memory 0 a.offset L3 := by
  obtain ⟨m, sp, sz, off, fc, ch⟩ := a
  simp only [Arena.memory, Arena.offset, Arena.size, Arena.free_count, Arena.child] at *
  cases hb2 with
  | cons _ _ _ _ _ hs hpos hdvds hf hrest =>
    have hfs : fb + s ≤ off := BlocksAt_le hrest
    have hsU31 : s < U31 := by omega
    have h16s : 16 ≤ s := Nat.le_of_dvd hpos hdvds
    have h4 : 4 ≤ fb + 8 := by omega
    have h8 : 8 ≤ fb + 8 := by omega
    by_cases hsplit : total + alignUp (ARENA_ALIGNMENT + metaSize) ≤
        arena_get_block_size m (fb + 8)
    · -- split branch
      have hs32 : total + 32 ≤ s := by
        rw [alignUp_const, hs] at hsplit
        exact hsplit
      set N1 : Mem := arena_set_block_size m (fb + 8) total with hN1d
      set N2 : Mem := arena_set_block_used N1 (fb + 8) true with hN2d
      set N3 : Mem := arena_set_block_size N2 (fb + total + 8)
        (arena_get_block_size m (fb + 8) - total) with hN3d
      set N4 : Mem := arena_set_block_used N3 (fb + total + 8) false with hN4d
      set N5 : Mem := arena_set_data_size N4 (fb + total + 8) 0 with hN5d
      have hred : allocReuse (Arena.mk m sp sz off fc ch) size total fb
          = (Except.ok (APtr.mk 0 (fb + 8)),
             Arena.mk N5 (usub sp (arena_get_block_size N5 (fb + 8))) sz off fc ch) := by
        simp only [allocReuse, Arena.memory, Arena.space, Arena.size, Arena.offset,
          Arena.free_count, Arena.child]
        rw [if_pos hsplit]
      rw [hred]
      refine ⟨rfl, rfl, rfl, rfl, rfl, ?_⟩
      have h4t : 4 ≤ fb + total + 8 := by omega
      have h8t : 8 ≤ fb + total + 8 := by omega
      have w1 : WritesIn m N1 (fb + 4) (fb + 8) := by
        simpa [show fb + 8 - 4 = fb + 4 from by omega] using
          writesIn_set_bs m (fb + 8) total h4
      have w2 : WritesIn N1 N2 (fb + 4) (fb + 8) := by
        simpa [show fb + 8 - 4 = fb + 4 from by omega] using
          writesIn_set_used N1 (fb + 8) true h4
      have w3 : WritesIn N2 N3 (fb + total + 4) (fb + total + 8) := by
        simpa [show fb + total + 8 - 4 = fb + total + 4 from by omega] using
          writesIn_set_bs N2 (fb + total + 8) (arena_get_block_size m (fb + 8) - total) h4t
      have w4 : WritesIn N3 N4 (fb + total + 4) (fb + total + 8) := by
        simpa [show fb + total + 8 - 4 = fb + total + 4 from by omega] using
          writesIn_set_used N3 (fb + total + 8) false h4t
      have w5 : WritesIn N4 N5 (fb + total) (fb + total + 4) := by
        simpa [show fb + total + 8 - 8 = fb + total from by omega,
          show fb + total + 8 - 4 = fb + total + 4 from by omega] using
          writesIn_set_ds N4 (fb + total + 8) 0 h8t
      have hwAll : WritesIn m N5 fb (fb + total + 8) := by
        refine (((( w1.mono (by omega) (by omega)).trans
          (w2.mono (by omega) (by omega))).trans
          (w3.mono (by omega) (by omega))).trans
          (w4.mono (by omega) (by omega))).trans (w5.mono (by omega) (by omega))
      have hpre : BlocksAt N5 0 fb L1 := BlocksAt_writesIn hb1 hwAll (by omega)
      have hsuf : BlocksAt N5 (fb + s) off L2 := BlocksAt_writesIn hrest hwAll (by omega)
      rcases (by omega : total = 0 ∨ 16 ≤ total) with h0 | h16t
      · -- degenerate split with total 0: block stays one free block of size s
        subst h0
        have hz : fb + 0 + 8 = fb + 8 := by omega
        rw [hz] at hN3d hN4d hN5d
        have g1 : arena_get_block_size N1 (fb + 8) = 0 := by
          rw [hN1d, gbs_set_bs]
          exact Nat.zero_mod _
        have g3 : arena_get_block_size N3 (fb + 8) = s := by
          rw [hN3d, gbs_set_bs, hs]
          simp only [Nat.sub_zero]
          exact Nat.mod_eq_of_lt hsU31
        have g4 : arena_get_block_size N4 (fb + 8) = s := by
          rw [hN4d, gbs_set_used, g3]
        have fr4 : arena_is_block_free N4 (fb + 8) = true := by
          rw [hN4d, free_set_used]
          rfl
        have g5 : arena_get_block_size N5 (fb + 8) = s := by
          rw [hN5d, gbs_set_ds _ _ _ h8, g4]
        have fr5 : arena_is_block_free N5 (fb + 8) = true := by
          rw [hN5d, free_set_ds _ _ _ h8, fr4]
        refine ⟨L1 ++ (s, true) :: L2, ?_⟩
        exact BlocksAt_append hpre
          (BlocksAt.cons fb off s true L2 g5 hpos hdvds fr5 hsuf)
      · -- genuine split: used block of size total plus free tail
        have htU : total % U31 = total := Nat.mod_eq_of_lt (by omega)
        have g1 : arena_get_block_size N1 (fb + 8) = total := by
          rw [hN1d, gbs_set_bs, htU]
        have g2 : arena_get_block_size N2 (fb + 8) = total := by
          rw [hN2d, gbs_set_used, g1]
        have fr2 : arena_is_block_free N2 (fb + 8) = false := by
          rw [hN2d, free_set_used]
          rfl
        have g3 : arena_get_block_size N3 (fb + 8) = total := by
          rw [gbs_writesIn w3 (fb + 8) h4 (by omega), g2]
        have g4 : arena_get_block_size N4 (fb + 8) = total := by
          rw [gbs_writesIn w4 (fb + 8) h4 (by omega), g3]
        have g5 : arena_get_block_size N5 (fb + 8) = total := by
          rw [gbs_writesIn w5 (fb + 8) h4 (by omega), g4]
        have fr3 : arena_is_block_free N3 (fb + 8) = false := by
          rw [free_writesIn w3 (fb + 8) h4 (by omega), fr2]
        have fr4 : arena_is_block_free N4 (fb + 8) = false := by
          rw [free_writesIn w4 (fb + 8) h4 (by omega), fr3]
        have fr5 : arena_is_block_free N5 (fb + 8) = false := by
          rw [free_writesIn w5 (fb + 8) h4 (by omega), fr4]
        have hstU : s - total < U31 := by omega
        have G3 : arena_get_block_size N3 (fb + total + 8) = s - total := by
          rw [hN3d, gbs_set_bs, hs]
          exact Nat.mod_eq_of_lt hstU
        have G4 : arena_get_block_size N4 (fb + total + 8) = s - total := by
          rw [hN4d, gbs_set_used, G3]
        have G5 : arena_get_block_size N5 (fb + total + 8) = s - total := by
          rw [hN5d, gbs_set_ds _ _ _ h8t, G4]
        have FR4 : arena_is_block_free N4 (fb + total + 8) = true := by
          rw [hN4d, free_set_used]
          rfl
        have FR5 : arena_is_block_free N5 (fb + total + 8) = true := by
          rw [hN5d, free_set_ds _ _ _ h8t, FR4]
        have hsuf2 : BlocksAt N5 (fb + total + (s - total)) off L2 := by
          rw [show fb + total + (s - total) = fb + s from by omega]
          exact hsuf
        refine ⟨L1 ++ (total, false) :: (s - total, true) :: L2, ?_⟩
        refine BlocksAt_append hpre ?_
        refine BlocksAt.cons fb off total false _ g5 (by omega) hdvd fr5 ?_
        exact BlocksAt.cons (fb + total) off (s - total) true L2 G5 (by omega)
          (Nat.dvd_sub' hdvds hdvd) FR5 hsuf2
    · -- no split: the whole free block becomes used
      set P1 : Mem := arena_set_block_used m (fb + 8) true with hP1d
      set P2 : Mem := arena_set_data_size P1 (fb + 8) size with hP2d
      have hred : allocReuse (Arena.mk m sp sz off fc ch) size total fb
          = (Except.ok (APtr.mk 0 (fb + 8)),
             Arena.mk P2 (usub sp (arena_get_block_size P2 (fb + 8))) sz off fc ch) := by
        simp only [allocReuse, Arena.memory, Arena.space, Arena.size, Arena.offset,
          Arena.free_count, Arena.child]
        rw [if_neg hsplit]
      rw [hred]
      refine ⟨rfl, rfl, rfl, rfl, rfl, ?_⟩
      have w1 : WritesIn m P1 (fb + 4) (fb + 8) := by
        simpa [show fb + 8 - 4 = fb + 4 from by omega] using
          writesIn_set_used m (fb + 8) true h4
      have w2 : WritesIn P1 P2 fb (fb + 4) := by
        simpa [show fb + 8 - 8 = fb from by omega,
          show fb + 8 - 4 = fb + 4 from by omega] using
          writesIn_set_ds P1 (fb + 8) size h8
      have hwAll : WritesIn m P2 fb (fb + 8) :=
        (w1.mono (by omega) (le_refl _)).trans (w2.mono (le_refl _) (by omega))
      have g1 : arena_get_block_size P1 (fb + 8) = s := by
        rw [hP1d, gbs_set_used, hs]
      have g2 : arena_get_block_size P2 (fb + 8) = s := by
        rw [hP2d, gbs_set_ds _ _ _ h8, g1]
      have fr1 : arena_is_block_free P1 (fb + 8) = false := by
        rw [hP1d, free_set_used]
        rfl
      have fr2 : arena_is_block_free P2 (fb + 8) = false := by
        rw [hP2d, free_set_ds _ _ _ h8, fr1]
      have hpre : BlocksAt P2 0 fb L1 := BlocksAt_writesIn hb1 hwAll (by omega)
      have hsuf : BlocksAt P2 (fb + s) off L2 := BlocksAt_writesIn hrest hwAll (by omega)
      refine ⟨L1 ++ (s, false) :: L2, ?_⟩
      exact BlocksAt_append hpre (BlocksAt.cons fb off s false L2 g2 hpos hdvds fr2 hsuf)

theorem totalSizeOf_eq (size : Nat) (h : size + 23 < U64) :
    totalSizeOf size = (size + 23) / 16 * 16 := by
  simp only [totalSizeOf]
  rw [Nat.mod_eq_of_lt (by omega : size < U64),
    Nat.mod_eq_of_lt (by omega : size + 8 < U64),
    Nat.mod_eq_of_lt (by omega : size + 8 + 15 < U64)]

theorem totalSizeOf_dvd (size : Nat) : 16 ∣ totalSizeOf size := by
  simp only [totalSizeOf]
  omega

theorem totalSizeOf_bounds (size : Nat) (h : size + 23 < U64) :
    size + 8 ≤ totalSizeOf size ∧ totalSizeOf size ≤ size + 23 := by
  rw [totalSizeOf_eq size h]
  omega

theorem usub_small (a b : Nat) (hba : b ≤ a) (haU : a < U64) : usub a b = a - b := by
  have hb : b % U64 = b := Nat.mod_eq_of_lt (by omega)
  simp only [usub, hb, U64] at *
  omega

/-- C2: on an arena within MAX_ARENA_SIZE, when the first-fit scan finds no
reusable block and the aligned total size (the request plus the 8-byte
header, rounded up to the 16-byte alignment) still fits between offset and
the region size, arena_alloc bump-allocates: it writes a new header at
memory + offset with block_size = total, used, data_size = size, zeroes the
data area, advances offset by total, decreases space by total, leaves
everything below offset untouched, and returns the pointer just past the
header. -/
theorem c2_bump_allocation (a : Arena) (size : Nat) (fresh : Mem) (junk : Nat)
    (h1 : 0 < size) (h2 : size ≤ MAX_ARENA_SIZE)
    (hfind : arena_find_free_block a (totalSizeOf size) = none)
    (hfit : a.offset + totalSizeOf size ≤ a.size)
    (hsz : a.size ≤ MAX_ARENA_SIZE)
    (hsp1 : totalSizeOf size ≤ a.space) (hsp2 : a.space < U64) :
    (arena_alloc a size fresh junk).1 = Except.ok (APtr.mk 0 (a.offset + 8)) ∧
    totalSizeOf size = alignUp (size + metaSize) ∧
    (arena_alloc a size fresh junk).2.offset = a.offset + totalSizeOf size ∧
    (arena_alloc a size fresh junk).2.space = a.space - totalSizeOf size ∧
    (arena_alloc a size fresh junk).2.size = a.size ∧
    (arena_alloc a size fresh junk).2.free_count = a.free_count ∧
    (arena_alloc a size fresh junk).2.child = a.child ∧
    arena_get_block_size (arena_alloc a size fresh junk).2.memory (a.offset + 8)
      = totalSizeOf size ∧
    arena_is_block_free (arena_alloc a size fresh junk).2.memory (a.offset + 8) = false ∧
    arena_get_data_size (arena_alloc a size fresh junk).2.memory (a.offset + 8) = size ∧
    (∀ i, a.offset + 8 ≤ i → i < a.offset + totalSizeOf size →
      (arena_alloc a size fresh junk).2.memory i = 0) ∧
    (∀ i, i < a.offset → (arena_alloc a size fresh junk).2.memory i = a.memory i) := by
  have hM : MAX_ARENA_SIZE = 1048576 := rfl
  have hU64big : (1048576 : Nat) + 23 < U64 := by
    simp only [U64]
    omega
  have h23 : size + 23 < U64 := by
    simp only [U64] at *
    omega
  obtain ⟨htl, htu⟩ := totalSizeOf_bounds size h23
  have hs0 : ¬size % U64 = 0 := by
    rw [Nat.mod_eq_of_lt (by simp only [U64] at *; omega)]
    omega
  have h2' : ¬a.size < totalSizeOf size := by omega
  have h3' : ¬MAX_BLOCK_SIZE < totalSizeOf size := by
    simp only [MAX_BLOCK_SIZE, U31]
    omega
  have hov : ¬a.size < (a.offset + totalSizeOf size) % U64 := by
    rw [Nat.mod_eq_of_lt (by simp only [U64] at *; omega)]
    omega
  have hred : arena_alloc a size fresh junk = allocBump a size (totalSizeOf size) := by
    rw [arena_alloc_unfold, aallocStep_bump _ _ _ _ _ hs0 h2' h3' hfind hov]
  have hdv : 16 ∣ totalSizeOf size := totalSizeOf_dvd size
  have h16 : 16 ≤ totalSizeOf size := by omega
  have hU31 : a.offset + totalSizeOf size < U31 := by
    simp only [U31]
    omega
  obtain ⟨r1, r2, r3, r4, r5, r6, r7, r8, r9, r10, r11⟩ :=
    allocBump_spec a size (totalSizeOf size) h16 hU31
  rw [hred]
  refine ⟨r1, ?_, r2, ?_, r4, r5, r6, r7, r8, ?_, r10, ?_⟩
  · rw [totalSizeOf_eq size h23]
    simp only [alignUp, metaSize]
  · rw [r3, usub_small a.space (totalSizeOf size) hsp1 hsp2]
  · rw [r9, Nat.mod_eq_of_lt (by simp only [U32]; omega : size < U32)]
  · intro i hi
    exact r11 i (by omega)

/-- Witness for C2: allocating 4 bytes from a fresh 1024-byte arena bumps a
16-byte block at offset 0. -/
theorem c2_bump_allocation_witness :
    (arena_alloc exFresh1024 4 zeroMem 0).1 = Except.ok (APtr.mk 0 8) ∧
    (arena_alloc exFresh1024 4 zeroMem 0).2.offset = 16 ∧
    (arena_alloc exFresh1024 4 zeroMem 0).2.space = 1008 ∧
    arena_get_block_size (arena_alloc exFresh1024 4 zeroMem 0).2.memory 8 = 16 ∧
    arena_get_data_size (arena_alloc exFresh1024 4 zeroMem 0).2.memory 8 = 4 := by
  obtain ⟨ha, -, hb, hc, -, -, -, hd, -, he, -, -⟩ :=
    c2_bump_allocation exFresh1024 4 zeroMem 0 (by decide) (by decide) (by decide)
      (by decide) (by decide) (by decide) (by decide)
  exact ⟨ha, hb, hc, hd, he⟩

theorem totalSizeOf_lt_U64 (size : Nat) : totalSizeOf size < U64 := by
  simp only [totalSizeOf, U64]
  omega

theorem chainLen_some (m : Mem) (sp sz off fc : Nat) (c : Arena) :
    chainLen (Arena.mk m sp sz off fc (some c)) = 1 + chainLen c := rfl

theorem aalloc_fresh (fuel : Nat) (m : Mem) (sp sz fc : Nat) (size : Nat)
    (fresh : Mem) (junk : Nat)
    (h1 : ¬size % U64 = 0) (h2 : ¬sz < totalSizeOf size)
    (h3 : ¬MAX_BLOCK_SIZE < totalSizeOf size) (_hszU : sz < U64) :
    aalloc (fuel + 1) (Arena.mk m sp sz 0 fc none) size fresh junk
      = allocBump (Arena.mk m sp sz 0 fc none) size (totalSizeOf size) := by
  rw [aalloc_succ]
  refine aallocStep_bump _ _ _ _ _ h1 h2 h3 rfl ?_
  show ¬sz < (0 + totalSizeOf size) % U64
  rw [Nat.zero_add, Nat.mod_eq_of_lt (totalSizeOf_lt_U64 size)]
  exact h2

/-- C5: when the current region has no reusable free block and the bump
space cannot hold the aligned total, arena_alloc delegates the original size
request to the child - creating a child of capacity identical to the
parent's first if none exists - and the parent's memory, offset, space, size
and free_count are untouched by the delegation. -/
theorem c5_overflow_delegation (a : Arena) (size : Nat) (fresh : Mem) (junk : Nat)
    (h1 : 0 < size) (h2 : size ≤ MAX_ARENA_SIZE)
    (hfind : arena_find_free_block a (totalSizeOf size) = none)
    (hfit : totalSizeOf size ≤ a.size)
    (hsz : a.size ≤ MAX_ARENA_SIZE) (hoffB : a.offset ≤ MAX_ARENA_SIZE)
    (hov : a.size < a.offset + totalSizeOf size) :
    ∃ c0, ((a.child = some c0) ∨
        (a.child = none ∧ c0 = Arena.mk fresh a.size a.size 0 (junk % 256) none)) ∧
      arena_alloc a size fresh junk =
        (Except.map (fun p => APtr.mk (p.depth + 1) p.off) (arena_alloc c0 size fresh junk).1,
         setChild a (some (arena_alloc c0 size fresh junk).2)) ∧
      (arena_alloc a size fresh junk).2.memory = a.memory ∧
      (arena_alloc a size fresh junk).2.offset = a.offset ∧
      (arena_alloc a size fresh junk).2.space = a.space ∧
      (arena_alloc a size fresh junk).2.size = a.size ∧
      (arena_alloc a size fresh junk).2.free_count = a.free_count := by
  have hM : MAX_ARENA_SIZE = 1048576 := rfl
  have h23 : size + 23 < U64 := by
    simp only [U64] at *
    omega
  obtain ⟨htl, htu⟩ := totalSizeOf_bounds size h23
  have hs0 : ¬size % U64 = 0 := by
    rw [Nat.mod_eq_of_lt (by simp only [U64] at *; omega)]
    omega
  have h2' : ¬a.size < totalSizeOf size := by omega
  have h3' : ¬MAX_BLOCK_SIZE < totalSizeOf size := by
    simp only [MAX_BLOCK_SIZE, U31]
    omega
  have hovm : a.size < (a.offset + totalSizeOf size) % U64 := by
    rw [Nat.mod_eq_of_lt (by simp only [U64] at *; omega)]
    exact hov
  obtain ⟨m, sp, sz, off, fc, ch⟩ := a
  simp only [Arena.memory, Arena.offset, Arena.space, Arena.size, Arena.free_count,
    Arena.child] at *
  cases ch with
  | some c =>
    have hfuel : chainLen (Arena.mk m sp sz off fc (some c)) + 1 = chainLen c + 2 := by
      rw [chainLen_some]
      omega
    have hEq : arena_alloc (Arena.mk m sp sz off fc (some c)) size fresh junk =
        (Except.map (fun p => APtr.mk (p.depth + 1) p.off)
          (arena_alloc c size fresh junk).1,
         setChild (Arena.mk m sp sz off fc (some c))
           (some (arena_alloc c size fresh junk).2)) := by
      rw [arena_alloc_unfold,
        aallocStep_delegate_some
          (aalloc (chainLen (Arena.mk m sp sz off fc (some c)) + 1))
          (Arena.mk m sp sz off fc (some c)) size fresh junk c hs0 h2' h3' hfind hovm rfl]
      rw [hfuel]
      rfl
    refine ⟨c, Or.inl rfl, hEq, ?_, ?_, ?_, ?_, ?_⟩ <;> rw [hEq] <;> rfl
  | none =>
    set c0 : Arena := Arena.mk fresh sz sz 0 (junk % 256) none with hc0d
    have hszmod : sz % U64 = sz := Nat.mod_eq_of_lt (by simp only [U64] at *; omega)
    have hcr : arena_create sz fresh junk = some c0 := by
      simp only [arena_create, hszmod]
      rw [if_neg (by omega)]
    have hcfresh : ∀ f2, aalloc (f2 + 1) c0 size fresh junk
        = allocBump c0 size (totalSizeOf size) := by
      intro f2
      exact aalloc_fresh f2 fresh sz sz (junk % 256) size fresh junk hs0 h2' h3'
        (by simp only [U64] at *; omega)
    have hEq : arena_alloc (Arena.mk m sp sz off fc none) size fresh junk =
        (Except.map (fun p => APtr.mk (p.depth + 1) p.off)
          (arena_alloc c0 size fresh junk).1,
         setChild (Arena.mk m sp sz off fc none)
           (some (arena_alloc c0 size fresh junk).2)) := by
      rw [arena_alloc_unfold,
        aallocStep_delegate_none
          (aalloc (chainLen (Arena.mk m sp sz off fc none) + 1))
          (Arena.mk m sp sz off fc none) size fresh junk c0 hs0 h2' h3' hfind hovm rfl hcr]
      have e1 : chainLen (Arena.mk m sp sz off fc none) = 1 := rfl
      have e2 : chainLen c0 = 1 := rfl
      rw [e1, show (1 : Nat) + 1 = 1 + 1 from rfl]
      rw [hcfresh 1]
      have e3 : arena_alloc c0 size fresh junk = allocBump c0 size (totalSizeOf size) := by
        rw [arena_alloc, e2, hcfresh 2]
      rw [e3]
    refine ⟨c0, Or.inr ⟨rfl, rfl⟩, hEq, ?_, ?_, ?_, ?_, ?_⟩ <;> rw [hEq] <;> rfl

/-- Witness for C5: allocating 8 bytes from a full 32-byte region creates a
32-byte child and serves the request from it at depth 1; the parent state is
untouched. -/
theorem c5_overflow_delegation_witness :
    (arena_alloc exC5Arena 8 zeroMem 0).1 = Except.ok (APtr.mk 1 8) ∧
    (arena_alloc exC5Arena 8 zeroMem 0).2.offset = 32 ∧
    (arena_alloc exC5Arena 8 zeroMem 0).2.memory = exC5Arena.memory := by
  obtain ⟨c0, hor, hEq, hm, ho, -, -, -⟩ :=
    c5_overflow_delegation exC5Arena 8 zeroMem 0 (by decide) (by decide) (by decide)
      (by decide) (by decide) (by decide) (by decide)
  rcases hor with h | ⟨-, rfl⟩
  · rw [show exC5Arena.child = none from rfl] at h
    exact Option.noConfusion h
  · refine ⟨?_, ho, hm⟩
    rw [hEq]
    rfl

theorem specCoalesce_nil : specCoalesce [] = [] := rfl

theorem specCoalesce_single (p : Nat × Bool) : specCoalesce [p] = [p] := by
  obtain ⟨s, f⟩ := p
  cases f <;> rfl

theorem specCoalesce_ne_nil (L : List (Nat × Bool)) (h : L ≠ []) :
    specCoalesce L ≠ [] := by
  match L with
  | (s, false) :: tl => simp [specCoalesce]
  | (s, true) :: tl =>
    simp only [specCoalesce]
    cases hsp : specCoalesce tl with
    | nil => simp
    | cons q r =>
      obtain ⟨t, ft⟩ := q
      cases ft <;> simp

theorem specCoalesce_sizeSum (L : List (Nat × Bool)) :
    sizeSum (specCoalesce L) = sizeSum L := by
  induction L with
  | nil => rfl
  | cons p tl ih =>
    obtain ⟨s, f⟩ := p
    cases f with
    | false =>
      simp only [specCoalesce, sizeSum, ih]
    | true =>
      simp only [specCoalesce]
      cases hsp : specCoalesce tl with
      | nil =>
        rw [hsp] at ih
        simp only [sizeSum] at ih ⊢
        omega
      | cons q r =>
        obtain ⟨t, ft⟩ := q
        rw [hsp] at ih
        cases ft with
        | false =>
          simp only [sizeSum] at ih ⊢
          omega
        | true =>
          simp only [sizeSum] at ih ⊢
          omega

theorem usedBlocks_specCoalesce (L : List (Nat × Bool)) :
    ∀ o, usedBlocks o (specCoalesce L) = usedBlocks o L := by
  induction L with
  | nil => intro o; rfl
  | cons p tl ih =>
    intro o
    obtain ⟨s, f⟩ := p
    cases f with
    | false =>
      simp only [specCoalesce, usedBlocks, ih]
    | true =>
      simp only [specCoalesce, usedBlocks]
      cases hsp : specCoalesce tl with
      | nil =>
        have := ih (o + s)
        rw [hsp] at this
        simp only [usedBlocks] at this ⊢
        exact this.symm ▸ (by simp [usedBlocks])
      | cons q r =>
        obtain ⟨t, ft⟩ := q
        have := ih (o + s)
        rw [hsp] at this
        cases ft with
        | false =>
          simp only [usedBlocks] at this ⊢
          exact this
        | true =>
          simp only [usedBlocks] at this ⊢
          rw [show o + (s + t) = o + s + t from by omega]
          exact this

theorem specCoalesce_coalesced (L : List (Nat × Bool)) : Coalesced (specCoalesce L) := by
  induction L with
  | nil => trivial
  | cons p tl ih =>
    obtain ⟨s, f⟩ := p
    cases f with
    | false =>
      show Coalesced ((s, false) :: specCoalesce tl)
      cases hsp : specCoalesce tl with
      | nil => trivial
      | cons q r =>
        obtain ⟨t, ft⟩ := q
        rw [hsp] at ih
        cases ft with
        | false => exact ih
        | true => exact ih
    | true =>
      simp only [specCoalesce]
      cases hsp : specCoalesce tl with
      | nil => trivial
      | cons q r =>
        obtain ⟨t, ft⟩ := q
        rw [hsp] at ih
        cases ft with
        | false =>
          show Coalesced ((s, true) :: (t, false) :: r)
          exact ih
        | true =>
          show Coalesced ((s + t, true) :: r)
          cases r with
          | nil => trivial
          | cons q2 r2 =>
            obtain ⟨t2, ft2⟩ := q2
            cases ft2 with
            | false => exact ih
            | true => exact False.elim ih

theorem specCoalesce_merge_head (s s2 : Nat) (R : List (Nat × Bool)) :
    specCoalesce ((s, true) :: (s2, true) :: R) = specCoalesce ((s + s2, true) :: R) := by
  simp only [specCoalesce]
  cases hsp : specCoalesce R with
  | nil => simp [Nat.add_assoc]
  | cons q r =>
    obtain ⟨t, ft⟩ := q
    cases ft with
    | false => simp
    | true => simp [Nat.add_assoc]

theorem specCoalesce_cons_used (s : Nat) (L : List (Nat × Bool)) :
    specCoalesce ((s, false) :: L) = (s, false) :: specCoalesce L := rfl

theorem specCoalesce_cons_free_used (s s2 : Nat) (f2 : Bool) (R : List (Nat × Bool))
    (h : f2 = false) :
    specCoalesce ((s, true) :: (s2, f2) :: R) = (s, true) :: specCoalesce ((s2, f2) :: R) := by
  subst h
  simp only [specCoalesce]

theorem internalBds_nil (o : Nat) : internalBds o [] = [] := rfl

theorem internalBds_single (o : Nat) (p : Nat × Bool) : internalBds o [p] = [] := rfl

theorem internalBds_pair (o s : Nat) (f : Bool) (q : Nat × Bool) (R : List (Nat × Bool)) :
    internalBds o ((s, f) :: q :: R) = (o + s) :: internalBds (o + s) (q :: R) := rfl

theorem internalBds_cons_ne (o s : Nat) (f : Bool) (tl : List (Nat × Bool)) (h : tl ≠ []) :
    internalBds o ((s, f) :: tl) = (o + s) :: internalBds (o + s) tl := by
  cases tl with
  | nil => exact absurd rfl h
  | cons q r => rfl

theorem internalBds_merge (off s s2 : Nat) (fA fB : Bool) (R : List (Nat × Bool)) :
    internalBds off ((s, fA) :: (s2, fB) :: R)
      = (off + s) :: internalBds off ((s + s2, fB) :: R) := by
  cases R with
  | nil => rfl
  | cons q r =>
    rw [internalBds_pair, internalBds_pair, internalBds_pair,
      show off + s + s2 = off + (s + s2) from by omega]

theorem gbs_as_rWord (m : Mem) (o : Nat) :
    arena_get_block_size m (o + 8) = rWord m (o + 4) / 2 := by
  simp only [arena_get_block_size, show o + 8 - 4 = o + 4 from by omega]

theorem free_as_rWord (m : Mem) (o : Nat) :
    arena_is_block_free m (o + 8) = decide (rWord m (o + 4) % 2 = 0) := by
  simp only [arena_is_block_free, show o + 8 - 4 = o + 4 from by omega]

theorem gds_as_rWord (m : Mem) (o : Nat) :
    arena_get_data_size m (o + 8) = rWord m o := by
  simp only [arena_get_data_size, show o + 8 - 8 = o from by omega]

theorem headerZeroed_of_bytes (m : Mem) (b : Nat)
    (h : ∀ j, b ≤ j → j < b + 8 → m j = 0) : headerZeroed m b := by
  have hz : ∀ j, b ≤ j → j < b + 8 → byteAt m j = 0 := by
    intro j h1 h2
    simp only [byteAt, h j h1 h2]
  have hw1 : rWord m (b + 4) = 0 := by
    simp only [rWord]
    rw [hz (b + 4) (by omega) (by omega), hz (b + 4 + 1) (by omega) (by omega),
      hz (b + 4 + 2) (by omega) (by omega), hz (b + 4 + 3) (by omega) (by omega)]
  have hw0 : rWord m b = 0 := by
    simp only [rWord]
    rw [hz b (by omega) (by omega), hz (b + 1) (by omega) (by omega),
      hz (b + 2) (by omega) (by omega), hz (b + 3) (by omega) (by omega)]
  refine ⟨?_, ?_, ?_⟩
  · rw [gbs_as_rWord, hw1]
  · rw [gds_as_rWord, hw0]
  · rw [free_as_rWord, hw1]
    rfl

theorem mergeLoop_spec {e : Nat} (heB : e ≤ MAX_ARENA_SIZE) :
    ∀ (fuel : Nat) (L : List (Nat × Bool)) (m : Mem) (off : Nat),
      BlocksAt m off e L → 2 * L.length < fuel →
      BlocksAt (mergeLoop e fuel m off) off e (specCoalesce L) ∧
      (∀ j, mergeLoop e fuel m off j ≠ m j →
        (off + 4 ≤ j ∧ j < off + 8) ∨ (∃ s1 f1 R1, L = (s1, f1) :: R1 ∧ off + s1 ≤ j)) ∧
      (∀ b, b ∈ internalBds off L → b ∉ internalBds off (specCoalesce L) →
        headerZeroed (mergeLoop e fuel m off) b) := by
  intro fuel
  induction fuel with
  | zero =>
    intro L m off hb hfuel
    omega
  | succ k ih =>
    intro L m off hb hfuel
    cases hb with
    | nil =>
      have hred : mergeLoop e (k + 1) m e = m := by
        rw [mergeLoop, if_neg (lt_irrefl e)]
      rw [hred]
      refine ⟨BlocksAt.nil _, ?_, ?_⟩
      · intro j hj
        exact absurd rfl hj
      · intro b hbm _
        rw [internalBds_nil] at hbm
        exact absurd hbm (List.not_mem_nil b)
    | cons _ _ s f tl hs hpos hdvd hf hrest =>
      have h16s : 16 ≤ s := Nat.le_of_dvd hpos hdvd
      have hse : off + s ≤ e := BlocksAt_le hrest
      have hsMAX : s < MAX_BLOCK_SIZE := by
        simp only [MAX_BLOCK_SIZE, U31, MAX_ARENA_SIZE] at *
        omega
      cases hrest with
      | nil =>
        -- single last block: the loop breaks at once
        have hred : mergeLoop (off + s) (k + 1) m off = m := by
          simp only [mergeLoop, hs]
          rw [if_pos (by omega : off < off + s), if_pos (le_refl (off + s))]
        rw [hred, specCoalesce_single]
        refine ⟨BlocksAt.cons off (off + s) s f [] hs hpos hdvd hf (BlocksAt.nil _), ?_, ?_⟩
        · intro j hj
          exact absurd rfl hj
        · intro b hbm _
          rw [internalBds_single] at hbm
          exact absurd hbm (List.not_mem_nil b)
      | cons _ _ s2 f2 R hs2 hpos2 hdvd2 hf2 hrest2 =>
        have h16s2 : 16 ≤ s2 := Nat.le_of_dvd hpos2 hdvd2
        have hs2e : off + s + s2 ≤ e := BlocksAt_le hrest2
        have hMA : MAX_ARENA_SIZE = 1048576 := rfl
        by_cases hff : f = true ∧ f2 = true
        · -- both free: the pass merges and rescans from the same offset
          obtain ⟨hfT, hf2T⟩ := hff
          subst hfT
          subst hf2T
          set m1 : Mem := bzero m (off + s) metaSize with hm1d
          set m2 : Mem := arena_set_block_size m1 (off + 8) (s + s2) with hm2d
          set m3 : Mem := arena_set_block_used m2 (off + 8) false with hm3d
          have hred : mergeLoop e (k + 1) m off = mergeLoop e k m3 off := by
            simp only [mergeLoop, hs, hs2]
            rw [if_pos (by omega : off < e), if_neg (by omega : ¬e ≤ off + s),
              if_pos ⟨hsMAX, hf, hf2⟩]
          have hw1 : WritesIn m m1 (off + s) (off + s + 8) := by
            simpa [metaSize] using writesIn_bzero m (off + s) metaSize
          have hw2 : WritesIn m1 m2 (off + 4) (off + 8) := by
            simpa [show off + 8 - 4 = off + 4 from by omega] using
              writesIn_set_bs m1 (off + 8) (s + s2) (by omega)
          have hw3 : WritesIn m2 m3 (off + 4) (off + 8) := by
            simpa [show off + 8 - 4 = off + 4 from by omega] using
              writesIn_set_used m2 (off + 8) false (by omega)
          have hword1 : rWord m1 (off + 4) = rWord m (off + 4) :=
            rWord_bzero_out m (off + s) metaSize (off + 4) (by simp [metaSize]; omega)
          have hg1 : arena_get_block_size m1 (off + 8) = s := by
            rw [gbs_as_rWord, hword1, ← gbs_as_rWord, hs]
          have hfr1 : arena_is_block_free m1 (off + 8) = true := by
            rw [free_as_rWord, hword1, ← free_as_rWord, hf]
          have hss2U : s + s2 < U31 := by
            simp only [U31, MAX_ARENA_SIZE] at *
            omega
          have hg2 : arena_get_block_size m2 (off + 8) = s + s2 := by
            rw [hm2d, gbs_set_bs]
            exact Nat.mod_eq_of_lt hss2U
          have hfr2 : arena_is_block_free m2 (off + 8) = true := by
            rw [hm2d, free_set_bs, hfr1]
          have hg3 : arena_get_block_size m3 (off + 8) = s + s2 := by
            rw [hm3d, gbs_set_used, hg2]
          have hfr3 : arena_is_block_free m3 (off + 8) = true := by
            rw [hm3d, free_set_used]
            rfl
          have hwAll : WritesIn m m3 (off + 4) (off + s + 8) := by
            refine ((hw1.mono (by omega) (by omega)).trans
              (hw2.mono (by omega) (by omega))).trans (hw3.mono (by omega) (by omega))
          have hR3 : BlocksAt m3 (off + s + s2) e R :=
            BlocksAt_writesIn hrest2 hwAll (by omega)
          have hb3 : BlocksAt m3 off e ((s + s2, true) :: R) := by
            refine BlocksAt.cons off e (s + s2) true R hg3 (by omega)
              (Nat.dvd_add hdvd hdvd2) hfr3 ?_
            rw [show off + (s + s2) = off + s + s2 from by omega]
            exact hR3
          have hfuel2 : 2 * ((s + s2, true) :: R).length < k := by
            simp only [List.length_cons] at hfuel ⊢
            omega
          obtain ⟨ihB, ihF, ihZ⟩ := ih ((s + s2, true) :: R) m3 off hb3 hfuel2
          -- bytes of the absorbed header stay zero through the recursion
          have hm3_zero : ∀ j, off + s ≤ j → j < off + s + 8 → m3 j = 0 := by
            intro j h1 h2
            have e3 : m3 j = m2 j := hw3 j (by omega)
            have e2 : m2 j = m1 j := hw2 j (by omega)
            rw [e3, e2, hm1d]
            exact bzero_in m (off + s) metaSize j h1 (by simp [metaSize]; omega)
          have hM_keep : ∀ j, off + s ≤ j → j < off + s + 8 →
              mergeLoop e k m3 off j = m3 j := by
            intro j h1 h2
            by_contra hne
            rcases ihF j hne with ⟨hj1, hj2⟩ | ⟨s1, f1, R1, hL, hjp⟩
            · omega
            · have : s1 = s + s2 := by
                injection hL with h1x h2x
                injection h1x with ha hb
                omega
              omega
          rw [hred]
          refine ⟨?_, ?_, ?_⟩
          · rw [specCoalesce_merge_head]
            exact ihB
          · intro j hj
            by_cases hcase : (off + 4 ≤ j ∧ j < off + 8) ∨ off + s ≤ j
            · rcases hcase with h | h
              · exact Or.inl h
              · exact Or.inr ⟨s, true, (s2, true) :: R, rfl, h⟩
            · exfalso
              have hj1 : ¬(off + 4 ≤ j ∧ j < off + 8) := fun h => hcase (Or.inl h)
              have hj2 : ¬off + s ≤ j := fun h => hcase (Or.inr h)
              have e1 : m1 j = m j := hw1 j (by omega)
              have e2 : m2 j = m1 j := hw2 j (by omega)
              have e3 : m3 j = m2 j := hw3 j (by omega)
              have e4 : mergeLoop e k m3 off j = m3 j := by
                by_contra hne
                rcases ihF j hne with ⟨ha1, ha2⟩ | ⟨s1, f1, R1, hL, hjp⟩
                · exact hj1 ⟨ha1, ha2⟩
                · have : s1 = s + s2 := by
                    injection hL with h1x h2x
                    injection h1x with ha hb
                    omega
                  omega
              exact hj (by rw [e4, e3, e2, e1])
          · intro b hbm hbnm
            rw [internalBds_merge] at hbm
            rw [specCoalesce_merge_head] at hbnm
            rcases List.mem_cons.mp hbm with hbeq | hbin
            · subst hbeq
              refine headerZeroed_of_bytes _ _ (fun j h1 h2 => ?_)
              rw [hM_keep j h1 h2]
              exact hm3_zero j h1 h2
            · exact ihZ b hbin hbnm
        · -- not both free: the scan advances past the first block
          have hcond : ¬(s < MAX_BLOCK_SIZE ∧ arena_is_block_free m (off + 8) = true ∧
              arena_is_block_free m (off + s + 8) = true) := by
            intro ⟨_, hA, hB⟩
            rw [hf] at hA
            rw [hf2] at hB
            exact hff ⟨hA, hB⟩
          have hred : mergeLoop e (k + 1) m off = mergeLoop e k m (off + s) := by
            simp only [mergeLoop, hs]
            rw [if_pos (by omega : off < e), if_neg (by omega : ¬e ≤ off + s),
              if_neg hcond]
          have hfuel2 : 2 * ((s2, f2) :: R).length < k := by
            simp only [List.length_cons] at hfuel ⊢
            omega
          obtain ⟨ihB, ihF, ihZ⟩ :=
            ih ((s2, f2) :: R) m (off + s)
              (BlocksAt.cons _ _ s2 f2 R hs2 hpos2 hdvd2 hf2 hrest2) hfuel2
          have hf2F : f = true → f2 = false := by
            intro hfT
            cases f2 with
            | false => rfl
            | true => exact absurd ⟨hfT, rfl⟩ hff
          have hspec : specCoalesce ((s, f) :: (s2, f2) :: R)
              = (s, f) :: specCoalesce ((s2, f2) :: R) := by
            cases f with
            | false => exact specCoalesce_cons_used s _
            | true => exact specCoalesce_cons_free_used s s2 f2 R (hf2F rfl)
          have hM_low : ∀ j, j < off + s → mergeLoop e k m (off + s) j = m j := by
            intro j hj
            by_contra hne
            rcases ihF j hne with ⟨ha1, ha2⟩ | ⟨s1, f1, R1, hL, hjp⟩
            · omega
            · have : s1 = s2 := by
                injection hL with h1x h2x
                injection h1x with ha hb
                omega
              omega
          have hword : rWord (mergeLoop e k m (off + s)) (off + 4) = rWord m (off + 4) :=
            rWord_eq_of_apply _ _ _ (fun j hj1 hj2 => hM_low j (by omega))
          have hgM : arena_get_block_size (mergeLoop e k m (off + s)) (off + 8) = s := by
            rw [gbs_as_rWord, hword, ← gbs_as_rWord, hs]
          have hfM : arena_is_block_free (mergeLoop e k m (off + s)) (off + 8) = f := by
            rw [free_as_rWord, hword, ← free_as_rWord, hf]
          rw [hred]
          refine ⟨?_, ?_, ?_⟩
          · rw [hspec]
            exact BlocksAt.cons off e s f _ hgM hpos hdvd hfM ihB
          · intro j hj
            rcases ihF j hj with ⟨ha1, ha2⟩ | ⟨s1, f1, R1, hL, hjp⟩
            · exact Or.inr ⟨s, f, (s2, f2) :: R, rfl, by omega⟩
            · exact Or.inr ⟨s, f, (s2, f2) :: R, rfl, by
                have : s1 = s2 := by
                  injection hL with h1x h2x
                  injection h1x with ha hb
                  omega
                omega⟩
          · intro b hbm hbnm
            rw [internalBds_pair] at hbm
            have hspecne : specCoalesce ((s2, f2) :: R) ≠ [] :=
              specCoalesce_ne_nil _ (by simp)
            rw [hspec, internalBds_cons_ne off s f _ hspecne] at hbnm
            rcases List.mem_cons.mp hbm with hbeq | hbin
            · exact absurd (List.mem_cons.mpr (Or.inl hbeq)) hbnm
            · refine ihZ b hbin (fun hmem => hbnm (List.mem_cons.mpr (Or.inr hmem)))

theorem arena_merge_fields (a : Arena) :
    (arena_merge_free_blocks a).offset = a.offset ∧
    (arena_merge_free_blocks a).space = a.space ∧
    (arena_merge_free_blocks a).size = a.size ∧
    (arena_merge_free_blocks a).free_count = a.free_count ∧
    (arena_merge_free_blocks a).child = a.child := ⟨rfl, rfl, rfl, rfl, rfl⟩

theorem arena_merge_spec (a : Arena) (L : List (Nat × Bool))
    (hb : BlocksAt a.memory 0 a.offset L) (hoffB : a.offset ≤ MAX_ARENA_SIZE) :
    BlocksAt (arena_merge_free_blocks a).memory 0 a.offset (specCoalesce L) ∧
    (∀ b, b ∈ internalBds 0 L → b ∉ internalBds 0 (specCoalesce L) →
      headerZeroed (arena_merge_free_blocks a).memory b) := by
  have hlen : L.length ≤ a.offset := by
    have := BlocksAt_length hb
    omega
  have hfuel : 2 * L.length < 2 * a.offset + 2 := by omega
  obtain ⟨h1, h2, h3⟩ := mergeLoop_spec hoffB (2 * a.offset + 2) L a.memory 0 hb hfuel
  exact ⟨h1, h3⟩

theorem modifyRegion_head_fields (a : Arena) (d : Nat) (g : Mem → Mem) :
    (modifyRegion a d g).space = a.space ∧ (modifyRegion a d g).size = a.size ∧
    (modifyRegion a d g).offset = a.offset ∧
    (modifyRegion a d g).free_count = a.free_count ∧
    ((modifyRegion a d g).child = none ↔ a.child = none) := by
  obtain ⟨m, sp, sz, off, fc, ch⟩ := a
  cases d with
  | zero =>
    cases ch with
    | none => exact ⟨rfl, rfl, rfl, rfl, Iff.rfl⟩
    | some c => exact ⟨rfl, rfl, rfl, rfl, Iff.rfl⟩
  | succ d2 =>
    cases ch with
    | none => exact ⟨rfl, rfl, rfl, rfl, Iff.rfl⟩
    | some c => exact ⟨rfl, rfl, rfl, rfl, by simp [modifyRegion, Arena.child]⟩

theorem setFc_free_count (a : Arena) (n : Nat) : (setFc a n).free_count = n := by
  obtain ⟨m, sp, sz, off, fc, ch⟩ := a
  rfl

theorem setSpaceFc_fields (a : Arena) (sp fc : Nat) :
    (setSpaceFc a sp fc).space = sp ∧ (setSpaceFc a sp fc).free_count = fc ∧
    (setSpaceFc a sp fc).memory = a.memory ∧ (setSpaceFc a sp fc).offset = a.offset ∧
    (setSpaceFc a sp fc).size = a.size ∧ (setSpaceFc a sp fc).child = a.child := by
  obtain ⟨m, sp0, sz, off, fc0, ch⟩ := a
  exact ⟨rfl, rfl, rfl, rfl, rfl, rfl⟩

theorem arena_free_trigger_resets (b2 : Arena) (q : APtr)
    (hreg : (regionMem b2 q.depth).isSome = true)
    (htrig : (b2.free_count + 1) % 256 = MAX_FREE_COUNT) :
    (arena_free b2 (some q)).free_count = 0 := by
  obtain ⟨mreg, hmreg⟩ := Option.isSome_iff_exists.mp hreg
  have hfc1 : (modifyRegion b2 q.depth (fun mm =>
      bzero (arena_set_block_used (arena_set_data_size mm q.off 0) q.off false)
        q.off (arena_get_block_size mreg q.off - metaSize))).free_count
      = b2.free_count := (modifyRegion_head_fields b2 q.depth _).2.2.2.1
  simp only [arena_free, hmreg]
  rw [hfc1, if_pos htrig]
  exact setFc_free_count _ 0

/-- C4: one coalescing pass over a tiled region realizes the spec-level
coalescing of the block list: every maximal run of adjacent free blocks
becomes one free block whose block_size is the sum of the run, used blocks
keep their offsets and sizes, the total of the block sizes is unchanged, no
two adjacent free blocks remain, the absorbed headers read as zeroed, and a
free that brings free_count to MAX_FREE_COUNT runs the pass and resets
free_count to 0. -/
theorem c4_deferred_coalescing (a : Arena) (L : List (Nat × Bool))
    (hb : BlocksAt a.memory 0 a.offset L) (hoffB : a.offset ≤ MAX_ARENA_SIZE) :
    BlocksAt (arena_merge_free_blocks a).memory 0 (arena_merge_free_blocks a).offset
      (specCoalesce L) ∧
    Coalesced (specCoalesce L) ∧
    sizeSum (specCoalesce L) = sizeSum L ∧
    usedBlocks 0 (specCoalesce L) = usedBlocks 0 L ∧
    (∀ b, b ∈ internalBds 0 L → b ∉ internalBds 0 (specCoalesce L) →
      headerZeroed (arena_merge_free_blocks a).memory b) ∧
    (arena_merge_free_blocks a).offset = a.offset ∧
    (arena_merge_free_blocks a).space = a.space ∧
    (∀ (b2 : Arena) (q : APtr), (regionMem b2 q.depth).isSome = true →
      (b2.free_count + 1) % 256 = MAX_FREE_COUNT →
      (arena_free b2 (some q)).free_count = 0) := by
  obtain ⟨h1, h2⟩ := arena_merge_spec a L hb hoffB
  refine ⟨h1, specCoalesce_coalesced L, specCoalesce_sizeSum L,
    usedBlocks_specCoalesce L 0, h2, rfl, rfl, arena_free_trigger_resets⟩

/-- Witness for C4: merging a region holding three adjacent free 16-byte
blocks produces the single free 48-byte block described by specCoalesce. -/
theorem c4_deferred_coalescing_witness :
    BlocksAt (arena_merge_free_blocks exMergeArena).memory 0
      (arena_merge_free_blocks exMergeArena).offset
      (specCoalesce [(16, true), (16, true), (16, true)]) ∧
    (arena_merge_free_blocks exMergeArena).offset = 48 := by
  have hb : BlocksAt exMergeArena.memory 0 exMergeArena.offset
      [(16, true), (16, true), (16, true)] := by
    refine BlocksAt.cons 0 48 16 true _ (by decide) (by decide) (by decide) (by decide) ?_
    refine BlocksAt.cons 16 48 16 true _ (by decide) (by decide) (by decide) (by decide) ?_
    refine BlocksAt.cons 32 48 16 true _ (by decide) (by decide) (by decide) (by decide) ?_
    exact BlocksAt.nil _
  obtain ⟨h1, -, -, -, -, h6, -, -⟩ :=
    c4_deferred_coalescing exMergeArena [(16, true), (16, true), (16, true)] hb (by decide)
  exact ⟨h1, h6⟩

theorem chainInv_parts (a : Arena) (h : ChainInv a) :
    RegionInv a ∧ ∀ c, a.child = some c → ChainInv c := by
  obtain ⟨m, sp, sz, off, fc, ch⟩ := a
  cases ch with
  | none =>
    refine ⟨h, ?_⟩
    intro c hc
    exact Option.noConfusion hc
  | some c =>
    refine ⟨h.1, ?_⟩
    intro c2 hc2
    rw [show c2 = c from (Option.some.inj hc2).symm]
    exact h.2

theorem chainInv_of_parts (b : Arena) (hR : RegionInv b)
    (hc : ∀ c, b.child = some c → ChainInv c) : ChainInv b := by
  obtain ⟨m, sp, sz, off, fc, ch⟩ := b
  cases ch with
  | none => exact hR
  | some c => exact ⟨hR, hc c rfl⟩

theorem arena_create_some (size : Nat) (fresh : Mem) (junk : Nat) (c : Arena)
    (h : arena_create size fresh junk = some c) :
    c = Arena.mk fresh (size % U64) (size % U64) 0 (junk % 256) none ∧
    0 < size % U64 ∧ size % U64 ≤ MAX_ARENA_SIZE := by
  simp only [arena_create] at h
  by_cases hc : size % U64 = 0 ∨ MAX_ARENA_SIZE < size % U64
  · rw [if_pos hc] at h
    exact Option.noConfusion h
  · rw [if_neg hc] at h
    push_neg at hc
    exact ⟨(Option.some.inj h).symm, by omega, hc.2⟩

theorem chainInv_create (size : Nat) (fresh : Mem) (junk : Nat) (a : Arena)
    (h : arena_create size fresh junk = some a) : ChainInv a := by
  obtain ⟨hc, hpos, hle⟩ := arena_create_some size fresh junk a h
  subst hc
  exact ⟨Nat.zero_le _, hle, ⟨[], BlocksAt.nil 0⟩⟩

theorem chainInv_reset : ∀ a : Arena, ChainInv a → ChainInv (arena_reset a)
  | .mk m sp sz off fc none => fun h =>
    ⟨Nat.zero_le _, h.2.1, ⟨[], BlocksAt.nil 0⟩⟩
  | .mk m sp sz off fc (some c) => fun h =>
    ⟨⟨Nat.zero_le _, h.1.2.1, ⟨[], BlocksAt.nil 0⟩⟩, chainInv_reset c h.2⟩

theorem chainInv_merge (a : Arena) (h : ChainInv a) : ChainInv (arena_merge_free_blocks a) := by
  obtain ⟨hR, hc⟩ := chainInv_parts a h
  obtain ⟨h1, h2, L, hb⟩ := hR
  obtain ⟨hm1, -⟩ := arena_merge_spec a L hb (by omega)
  refine chainInv_of_parts _ ⟨?_, ?_, ⟨specCoalesce L, ?_⟩⟩ ?_
  · rw [(arena_merge_fields a).1, (arena_merge_fields a).2.2.1]
    exact h1
  · rw [(arena_merge_fields a).2.2.1]
    exact h2
  · rw [(arena_merge_fields a).1]
    exact hm1
  · intro c hcc
    rw [(arena_merge_fields a).2.2.2.2] at hcc
    exact hc c hcc

theorem chainInv_setSpaceFc (a : Arena) (sp fc : Nat) (h : ChainInv a) :
    ChainInv (setSpaceFc a sp fc) := by
  obtain ⟨m, sp0, sz, off, fc0, ch⟩ := a
  cases ch with
  | none => exact h
  | some c => exact h

theorem chainInv_setFc (a : Arena) (fc : Nat) (h : ChainInv a) :
    ChainInv (setFc a fc) := by
  obtain ⟨m, sp0, sz, off, fc0, ch⟩ := a
  cases ch with
  | none => exact h
  | some c => exact h

theorem chainInv_modifyRegion : ∀ (d : Nat) (a : Arena) (g : Mem → Mem),
    ChainInv a →
    (∀ node, regionAt a d = some node →
      ∃ L2, BlocksAt (g node.memory) 0 node.offset L2) →
    ChainInv (modifyRegion a d g) := by
  intro d
  induction d with
  | zero =>
    intro a g hInv hg
    obtain ⟨m, sp, sz, off, fc, ch⟩ := a
    obtain ⟨L2, hb2⟩ := hg (Arena.mk m sp sz off fc ch) rfl
    cases ch with
    | none => exact ⟨hInv.1, hInv.2.1, ⟨L2, hb2⟩⟩
    | some c => exact ⟨⟨hInv.1.1, hInv.1.2.1, ⟨L2, hb2⟩⟩, hInv.2⟩
  | succ d2 ihd =>
    intro a g hInv hg
    obtain ⟨m, sp, sz, off, fc, ch⟩ := a
    cases ch with
    | none => exact hInv
    | some c =>
      refine ⟨⟨hInv.1.1, hInv.1.2.1, hInv.1.2.2⟩, ihd c g hInv.2 ?_⟩
      intro node hnode
      exact hg node hnode

theorem free_block_blocks {m : Mem} {bd s e : Nat} {f : Bool} {L1 L2 : List (Nat × Bool)}
    (hb1 : BlocksAt m 0 bd L1) (hb2 : BlocksAt m bd e ((s, f) :: L2)) :
    ∃ L3, BlocksAt
      (bzero (arena_set_block_used (arena_set_data_size m (bd + 8) 0) (bd + 8) false)
        (bd + 8) (arena_get_block_size m (bd + 8) - metaSize)) 0 e L3 := by
  cases hb2 with
  | cons _ _ _ _ _ hs hpos hdvd hf hrest =>
    have h16s : 16 ≤ s := Nat.le_of_dvd hpos hdvd
    have hse : bd + s ≤ e := BlocksAt_le hrest
    rw [hs]
    set Q1 : Mem := arena_set_data_size m (bd + 8) 0 with hQ1d
    set Q2 : Mem := arena_set_block_used Q1 (bd + 8) false with hQ2d
    set Q3 : Mem := bzero Q2 (bd + 8) (s - metaSize) with hQ3d
    have w1 : WritesIn m Q1 bd (bd + 4) := by
      simpa [show bd + 8 - 8 = bd from by omega,
        show bd + 8 - 4 = bd + 4 from by omega] using
        writesIn_set_ds m (bd + 8) 0 (by omega)
    have w2 : WritesIn Q1 Q2 (bd + 4) (bd + 8) := by
      simpa [show bd + 8 - 4 = bd + 4 from by omega] using
        writesIn_set_used Q1 (bd + 8) false (by omega)
    have w3 : WritesIn Q2 Q3 (bd + 8) (bd + s) := by
      have := writesIn_bzero Q2 (bd + 8) (s - metaSize)
      simpa [show bd + 8 + (s - metaSize) = bd + s from by simp [metaSize]; omega] using this
    have hwAll : WritesIn m Q3 bd (bd + s) := by
      refine ((w1.mono (by omega) (by omega)).trans
        (w2.mono (by omega) (by omega))).trans (w3.mono (by omega) (by omega))
    have g1 : arena_get_block_size Q1 (bd + 8) = s := by
      rw [hQ1d, gbs_set_ds _ _ _ (by omega), hs]
    have g2 : arena_get_block_size Q2 (bd + 8) = s := by
      rw [hQ2d, gbs_set_used, g1]
    have fr2 : arena_is_block_free Q2 (bd + 8) = true := by
      rw [hQ2d, free_set_used]
      rfl
    have hword : rWord Q3 (bd + 4) = rWord Q2 (bd + 4) := by
      rw [hQ3d]
      exact rWord_bzero_out Q2 (bd + 8) (s - metaSize) (bd + 4) (by omega)
    have g3 : arena_get_block_size Q3 (bd + 8) = s := by
      rw [gbs_as_rWord, hword, ← gbs_as_rWord, g2]
    have fr3 : arena_is_block_free Q3 (bd + 8) = true := by
      rw [free_as_rWord, hword, ← free_as_rWord, fr2]
    have hpre : BlocksAt Q3 0 bd L1 := BlocksAt_writesIn hb1 hwAll (by omega)
    have hsuf : BlocksAt Q3 (bd + s) e L2 := BlocksAt_writesIn hrest hwAll (by omega)
    exact ⟨L1 ++ (s, true) :: L2,
      BlocksAt_append hpre (BlocksAt.cons bd e s true L2 g3 hpos hdvd fr3 hsuf)⟩

theorem chainInv_free (a : Arena) (p : APtr) (hInv : ChainInv a)
    (hvp : ValidFreePtr a p) : ChainInv (arena_free a (some p)) := by
  obtain ⟨node, hreg, bd, L1, s, f, L2, hoffp, hb1, hb2⟩ := hvp
  have hmem : regionMem a p.depth = some node.memory := by
    simp [regionMem, hreg]
  simp only [arena_free, hmem]
  have hInv1 : ChainInv (modifyRegion a p.depth (fun mm =>
      bzero (arena_set_block_used (arena_set_data_size mm p.off 0) p.off false)
        p.off (arena_get_block_size node.memory p.off - metaSize))) := by
    refine chainInv_modifyRegion p.depth a _ hInv ?_
    intro node2 hnode2
    have hn : node2 = node := Option.some.inj (hnode2.symm.trans hreg)
    subst hn
    rw [hoffp]
    exact free_block_blocks hb1 hb2
  by_cases htrig : ((modifyRegion a p.depth (fun mm =>
      bzero (arena_set_block_used (arena_set_data_size mm p.off 0) p.off false)
        p.off (arena_get_block_size node.memory p.off - metaSize))).free_count + 1) % 256
      = MAX_FREE_COUNT
  · rw [if_pos htrig]
    exact chainInv_setFc _ 0 (chainInv_merge _ (chainInv_setSpaceFc _ _ _ hInv1))
  · rw [if_neg htrig]
    exact chainInv_setSpaceFc _ _ _ hInv1

theorem aallocStep_create_fail (rec : Arena → Nat → Mem → Nat → Except AErr APtr × Arena)
    (a : Arena) (size : Nat) (fresh : Mem) (junk : Nat)
    (h1 : ¬size % U64 = 0) (h2 : ¬a.size < totalSizeOf size)
    (h3 : ¬MAX_BLOCK_SIZE < totalSizeOf size)
    (hf : arena_find_free_block a (totalSizeOf size) = none)
    (hov : a.size < (a.offset + totalSizeOf size) % U64)
    (hc : a.child = none) (hcr : arena_create a.size fresh junk = none) :
    aallocStep rec a size fresh junk = (Except.error AErr.invalidArena, setChild a none) := by
  simp only [aallocStep, if_neg h1, if_neg h2, if_neg h3, hf, if_pos hov, hc, hcr]

theorem setChild_fields (a : Arena) (ch : Option Arena) :
    (setChild a ch).memory = a.memory ∧ (setChild a ch).space = a.space ∧
    (setChild a ch).size = a.size ∧ (setChild a ch).offset = a.offset ∧
    (setChild a ch).free_count = a.free_count ∧ (setChild a ch).child = ch := by
  obtain ⟨m, sp, sz, off, fc, ch0⟩ := a
  exact ⟨rfl, rfl, rfl, rfl, rfl, rfl⟩

theorem setChild_none_self (a : Arena) (h : a.child = none) : setChild a none = a := by
  obtain ⟨m, sp, sz, off, fc, ch0⟩ := a
  rw [show ch0 = none from h]
  rfl

theorem chainInv_setChild (a : Arena) (c : Arena) (hR : RegionInv a) (hc : ChainInv c) :
    ChainInv (setChild a (some c)) := by
  refine chainInv_of_parts _ ?_ ?_
  · obtain ⟨h1, h2, L, hb⟩ := hR
    obtain ⟨e1, e2, e3, e4, e5, e6⟩ := setChild_fields a (some c)
    refine ⟨?_, ?_, ⟨L, ?_⟩⟩
    · rw [e3, e4]
      exact h1
    · rw [e3]
      exact h2
    · rw [e1, e4]
      exact hb
  · intro c2 hc2
    rw [(setChild_fields a (some c)).2.2.2.2.2] at hc2
    rw [show c2 = c from (Option.some.inj hc2).symm]
    exact hc

theorem allocBump_fields (a : Arena) (size total : Nat) :
    (allocBump a size total).2.offset = (a.offset + total) % U64 ∧
    (allocBump a size total).2.size = a.size ∧
    (allocBump a size total).2.child = a.child := ⟨rfl, rfl, rfl⟩

theorem allocBump_memory_zero (a : Arena) (size : Nat) :
    (allocBump a size 0).2.memory =
      arena_set_data_size (arena_set_block_used (arena_set_block_size
        (bzero a.memory a.offset 0) (a.offset + 8) 0) (a.offset + 8) true)
        (a.offset + 8) size := rfl

theorem aalloc_chainInv : ∀ (fuel : Nat) (a : Arena) (size : Nat) (fresh : Mem) (junk : Nat),
    ChainInv a → ChainInv (aalloc fuel a size fresh junk).2 := by
  intro fuel
  induction fuel with
  | zero =>
    intro a size fresh junk h
    exact h
  | succ k ih =>
    intro a size fresh junk hInv
    obtain ⟨hR, hc⟩ := chainInv_parts a hInv
    obtain ⟨hos, hsM, L, hb⟩ := hR
    have hMA : MAX_ARENA_SIZE = 1048576 := rfl
    rw [aalloc_succ]
    by_cases h1 : size % U64 = 0
    · rw [aallocStep_size0 _ _ _ _ _ h1]
      exact hInv
    by_cases h2 : a.size < totalSizeOf size
    · rw [aallocStep_tooLarge _ _ _ _ _ h1 h2]
      exact hInv
    by_cases h3 : MAX_BLOCK_SIZE < totalSizeOf size
    · rw [aallocStep_blockTooBig _ _ _ _ _ h1 h2 h3]
      exact hInv
    cases hfind : arena_find_free_block a (totalSizeOf size) with
    | some fb =>
      rw [aallocStep_reuse _ _ _ _ _ fb h1 h2 h3 hfind]
      have hlen : L.length < a.offset + 1 := by
        have := BlocksAt_length hb
        omega
      obtain ⟨L1, s, L2, hLeq, hb1, hb2, hts⟩ := findLoop_some hb hlen hfind
      obtain ⟨-, f2, f3, -, f5, hL3⟩ :=
        allocReuse_blocks hb1 hb2 (totalSizeOf_dvd size) hts
          (by simp only [U31]; omega)
      obtain ⟨L3, hb3⟩ := hL3
      refine chainInv_of_parts _ ⟨?_, ?_, ⟨L3, ?_⟩⟩ ?_
      · rw [f2, f3]
        exact hos
      · rw [f3]
        exact hsM
      · rw [f2]
        exact hb3
      · intro c hcc
        rw [f5] at hcc
        exact hc c hcc
    | none =>
      by_cases hov : a.size < (a.offset + totalSizeOf size) % U64
      · cases hch : a.child with
        | some c =>
          rw [aallocStep_delegate_some _ _ _ _ _ c h1 h2 h3 hfind hov hch]
          exact chainInv_setChild a _ ⟨hos, hsM, L, hb⟩ (ih c size fresh junk (hc c hch))
        | none =>
          cases hcr : arena_create a.size fresh junk with
          | none =>
            rw [aallocStep_create_fail _ _ _ _ _ h1 h2 h3 hfind hov hch hcr]
            rw [setChild_none_self a hch]
            exact hInv
          | some c0 =>
            rw [aallocStep_delegate_none _ _ _ _ _ c0 h1 h2 h3 hfind hov hch hcr]
            exact chainInv_setChild a _ ⟨hos, hsM, L, hb⟩
              (ih c0 size fresh junk (chainInv_create a.size fresh junk c0 hcr))
      · rw [aallocStep_bump _ _ _ _ _ h1 h2 h3 hfind hov]
        have hoffU : a.offset + totalSizeOf size < U64 := by
          simp only [U64, MAX_ARENA_SIZE] at *
          omega
        have hoffmod : (a.offset + totalSizeOf size) % U64 = a.offset + totalSizeOf size :=
          Nat.mod_eq_of_lt hoffU
        have hfit : a.offset + totalSizeOf size ≤ a.size := by omega
        rcases (by have := totalSizeOf_dvd size; omega :
            totalSizeOf size = 0 ∨ 16 ≤ totalSizeOf size) with h0 | h16
        · obtain ⟨z1, z2⟩ := @allocBump_zero_blocks a size L hb
            (by simp only [U64, MAX_ARENA_SIZE] at *; omega)
          rw [h0] at *
          refine chainInv_of_parts _ ⟨?_, ?_, ⟨L, ?_⟩⟩ ?_
          · rw [z1, (allocBump_fields a size 0).2.1]
            exact hos
          · rw [(allocBump_fields a size 0).2.1]
            exact hsM
          · rw [z1]
            exact z2
          · intro c hcc
            rw [(allocBump_fields a size 0).2.2] at hcc
            exact hc c hcc
        · have hU31 : a.offset + totalSizeOf size < U31 := by
            simp only [U31, MAX_ARENA_SIZE] at *
            omega
          have hbump := @allocBump_blocks a size (totalSizeOf size) L hb h16
            (totalSizeOf_dvd size) hU31
          refine chainInv_of_parts _ ⟨?_, ?_,
            ⟨L ++ [(totalSizeOf size, false)], ?_⟩⟩ ?_
          · rw [(allocBump_fields a size (totalSizeOf size)).1,
              (allocBump_fields a size (totalSizeOf size)).2.1, hoffmod]
            omega
          · rw [(allocBump_fields a size (totalSizeOf size)).2.1]
            exact hsM
          · rw [(allocBump_fields a size (totalSizeOf size)).1, hoffmod]
            exact hbump
          · intro c hcc
            rw [(allocBump_fields a size (totalSizeOf size)).2.2] at hcc
            exact hc c hcc

/-- C1: the tiling invariant - the blocks of every region in the chain tile
the byte range from 0 to offset with no gaps, the sum of their block_size
fields equal to offset - is established by arena_create and preserved by
arena_alloc, by arena_free (on a null pointer or on any valid block
pointer), by the coalescing pass and by arena_reset. -/
theorem c1_block_tiling_invariant :
    (∀ size fresh junk a, arena_create size fresh junk = some a → ChainInv a) ∧
    (∀ a size fresh junk, ChainInv a → ChainInv (arena_alloc a size fresh junk).2) ∧
    (∀ a p, ChainInv a → ValidFreePtr a p → ChainInv (arena_free a (some p))) ∧
    (∀ a, ChainInv a → ChainInv (arena_free a none)) ∧
    (∀ a, ChainInv a → ChainInv (arena_merge_free_blocks a)) ∧
    (∀ a, ChainInv a → ChainInv (arena_reset a)) ∧
    (∀ a, ChainInv a → ∃ L, BlocksAt a.memory 0 a.offset L ∧ sizeSum L = a.offset) := by
  refine ⟨fun size fresh junk a h => chainInv_create size fresh junk a h,
    fun a size fresh junk h => aalloc_chainInv _ a size fresh junk h,
    fun a p h hv => chainInv_free a p h hv,
    fun a h => h,
    fun a h => chainInv_merge a h,
    fun a h => chainInv_reset a h,
    fun a h => ?_⟩
  obtain ⟨⟨-, -, L, hb⟩, -⟩ := chainInv_parts a h
  refine ⟨L, hb, ?_⟩
  have := BlocksAt_sum hb
  omega

/-- Witness for C1: the chain invariant holds for a fresh 1024-byte arena
and is preserved by an allocation of 4 bytes from it. -/
theorem c1_block_tiling_invariant_witness :
    ChainInv (arena_alloc exFresh1024 4 zeroMem 0).2 :=
  c1_block_tiling_invariant.2.1 exFresh1024 4 zeroMem 0
    ⟨Nat.zero_le 1024, by decide, ⟨[], BlocksAt.nil 0⟩⟩

/-- C6 counterexample: cex6Head is a full 32-byte head arena whose child
holds one used 16-byte block; freeing that block through the head handle
marks the block free in the child region, but adds its block_size to the
HEAD node's space and increments the HEAD node's free_count - the owning
(child) region's space stays 16 (the claim requires 32) and its free_count
stays 0 (the claim requires 1). -/
theorem c6_free_counterexample :
    (arena_free cex6Head (some (APtr.mk 1 8))).child.map
      (fun c => arena_is_block_free c.memory 8) = some true ∧
    (arena_free cex6Head (some (APtr.mk 1 8))).space = 16 ∧
    (arena_free cex6Head (some (APtr.mk 1 8))).free_count = 1 ∧
    ¬((arena_free cex6Head (some (APtr.mk 1 8))).child.map Arena.space = some 32) ∧
    ¬((arena_free cex6Head (some (APtr.mk 1 8))).child.map Arena.free_count = some 1) := by
  refine ⟨by decide, by decide, by decide, by decide, by decide⟩

theorem gbs_lt_U31 (m : Mem) (dp : Nat) : arena_get_block_size m dp < U31 := by
  have := rWord_lt m (dp - 4)
  simp only [arena_get_block_size, U31, U32] at *
  omega

theorem regionMem_setSpaceFc (a : Arena) (sp fc d : Nat) :
    regionMem (setSpaceFc a sp fc) d = regionMem a d := by
  obtain ⟨m, sp0, sz, off, fc0, ch⟩ := a
  cases d with
  | zero => rfl
  | succ d2 => rfl

theorem regionMem_modifyRegion_same : ∀ (d : Nat) (a : Arena) (g : Mem → Mem),
    regionMem (modifyRegion a d g) d = (regionMem a d).map g := by
  intro d
  induction d with
  | zero =>
    intro a g
    obtain ⟨m, sp, sz, off, fc, ch⟩ := a
    cases ch with
    | none => rfl
    | some c => rfl
  | succ d2 ihd =>
    intro a g
    obtain ⟨m, sp, sz, off, fc, ch⟩ := a
    cases ch with
    | none => rfl
    | some c =>
      show regionMem (modifyRegion c d2 g) d2 = (regionMem c d2).map g
      exact ihd c g

/-- C6 amended: arena_free on a null pointer is a no-op.  On a non-null
pointer it reads the block_size in front of the pointer, stores data_size 0,
marks the block free, zeroes the block's data area (all in the region the
pointer belongs to), and adds the block_size to the space of the ARENA NODE
THE CALL WAS MADE ON - the head - and increments that node's free_count
(which coincides with the owning region exactly when the pointer was
allocated from the head's own region); when the incremented count reaches
MAX_FREE_COUNT the free_count is reset to 0 after the coalescing pass. -/
theorem setFc_space (a : Arena) (n : Nat) : (setFc a n).space = a.space := by
  obtain ⟨m, sp, sz, off, fc, ch⟩ := a
  rfl

theorem c6_free_effects_amended (a : Arena) (p : APtr) (node : Arena)
    (hreg : regionAt a p.depth = some node) (hp8 : 8 ≤ p.off)
    (hsp : a.space + arena_get_block_size node.memory p.off < U64) :
    arena_free a none = a ∧
    (arena_free a (some p)).space = a.space + arena_get_block_size node.memory p.off ∧
    (arena_free a (some p)).free_count =
      (if (a.free_count + 1) % 256 = MAX_FREE_COUNT then 0 else (a.free_count + 1) % 256) ∧
    ((a.free_count + 1) % 256 ≠ MAX_FREE_COUNT →
      ∃ m2, regionMem (arena_free a (some p)) p.depth = some m2 ∧
        arena_get_data_size m2 p.off = 0 ∧
        arena_is_block_free m2 p.off = true ∧
        arena_get_block_size m2 p.off = arena_get_block_size node.memory p.off ∧
        (∀ i, p.off ≤ i →
          i < p.off + (arena_get_block_size node.memory p.off - metaSize) → m2 i = 0) ∧
        (∀ i, i + 8 < p.off ∨
          p.off + (arena_get_block_size node.memory p.off - metaSize) ≤ i →
          m2 i = node.memory i)) := by
  have hmem : regionMem a p.depth = some node.memory := by
    simp [regionMem, hreg]
  set bs : Nat := arena_get_block_size node.memory p.off with hbsd
  set g : Mem → Mem := fun mm =>
    bzero (arena_set_block_used (arena_set_data_size mm p.off 0) p.off false)
      p.off (bs - metaSize) with hgd
  have hred : arena_free a (some p)
      = (if ((modifyRegion a p.depth g).free_count + 1) % 256 = MAX_FREE_COUNT then
          setFc (arena_merge_free_blocks (setSpaceFc (modifyRegion a p.depth g)
            (((modifyRegion a p.depth g).space + bs) % U64)
            (((modifyRegion a p.depth g).free_count + 1) % 256))) 0
        else setSpaceFc (modifyRegion a p.depth g)
            (((modifyRegion a p.depth g).space + bs) % U64)
            (((modifyRegion a p.depth g).free_count + 1) % 256)) := by
    simp only [arena_free, hmem]
  obtain ⟨e1, e2, e3, e4, e5⟩ := modifyRegion_head_fields a p.depth g
  refine ⟨rfl, ?_, ?_, ?_⟩
  · rw [hred]
    by_cases htrig : ((modifyRegion a p.depth g).free_count + 1) % 256 = MAX_FREE_COUNT
    · rw [if_pos htrig, setFc_space, (arena_merge_fields _).2.1,
        (setSpaceFc_fields _ _ _).1, e1, Nat.mod_eq_of_lt hsp]
    · rw [if_neg htrig, (setSpaceFc_fields _ _ _).1, e1, Nat.mod_eq_of_lt hsp]
  · rw [hred]
    rw [e4]
    by_cases htrig : (a.free_count + 1) % 256 = MAX_FREE_COUNT
    · rw [if_pos htrig, if_pos htrig, setFc_free_count]
    · rw [if_neg htrig, if_neg htrig, (setSpaceFc_fields _ _ _).2.1]
  · intro hnt
    rw [hred, e4, if_neg hnt]
    set Q1 : Mem := arena_set_data_size node.memory p.off 0 with hQ1d
    set Q2 : Mem := arena_set_block_used Q1 p.off false with hQ2d
    have hq1ds : arena_get_data_size Q1 p.off = 0 := by
      rw [hQ1d, gds_set_ds]
      exact Nat.zero_mod _
    have hq2ds : arena_get_data_size Q2 p.off = 0 := by
      rw [hQ2d, gds_set_used _ _ _ hp8, hq1ds]
    have hq1gbs : arena_get_block_size Q1 p.off = bs := by
      rw [hQ1d, gbs_set_ds _ _ _ hp8]
    have hq2gbs : arena_get_block_size Q2 p.off = bs := by
      rw [hQ2d, gbs_set_used, hq1gbs]
    have hq2fr : arena_is_block_free Q2 p.off = true := by
      rw [hQ2d, free_set_used]
      rfl
    have hw8 : rWord (bzero Q2 p.off (bs - metaSize)) (p.off - 8) = rWord Q2 (p.off - 8) :=
      rWord_bzero_out Q2 p.off (bs - metaSize) (p.off - 8) (Or.inl (by omega))
    have hw4 : rWord (bzero Q2 p.off (bs - metaSize)) (p.off - 4) = rWord Q2 (p.off - 4) :=
      rWord_bzero_out Q2 p.off (bs - metaSize) (p.off - 4) (Or.inl (by omega))
    refine ⟨g node.memory, ?_, ?_, ?_, ?_, ?_, ?_⟩
    · rw [regionMem_setSpaceFc, regionMem_modifyRegion_same, hmem]
      rfl
    · show arena_get_data_size (bzero Q2 p.off (bs - metaSize)) p.off = 0
      simp only [arena_get_data_size] at hq2ds ⊢
      rw [hw8, hq2ds]
    · show arena_is_block_free (bzero Q2 p.off (bs - metaSize)) p.off = true
      simp only [arena_is_block_free] at hq2fr ⊢
      rw [hw4, hq2fr]
    · show arena_get_block_size (bzero Q2 p.off (bs - metaSize)) p.off = bs
      simp only [arena_get_block_size] at hq2gbs ⊢
      rw [hw4, hq2gbs]
    · intro i hi1 hi2
      show bzero Q2 p.off (bs - metaSize) i = 0
      exact bzero_in Q2 p.off (bs - metaSize) i hi1 hi2
    · intro i hi
      have hms : metaSize = 8 := rfl
      show bzero Q2 p.off (bs - metaSize) i = node.memory i
      have e3z : bzero Q2 p.off (bs - metaSize) i = Q2 i :=
        bzero_out Q2 p.off (bs - metaSize) i (by omega)
      have e2z : Q2 i = Q1 i := by
        rw [hQ2d]
        exact wWord_out Q1 (p.off - 4) _ i (by omega)
      have e1z : Q1 i = node.memory i := by
        rw [hQ1d]
        exact wWord_out node.memory (p.off - 8) _ i (by omega)
      rw [e3z, e2z, e1z]

/-- Witness for the amended C6 theorem: freeing the single 112-byte block of
a 1024-byte arena through the head handle returns its block_size to the head
node's space (912 + 112 = 1024) and takes its free_count to 1; a null free
is a no-op. -/
theorem c6_free_effects_amended_witness :
    (arena_free exC6w (some (APtr.mk 0 8))).space = 1024 ∧
    (arena_free exC6w (some (APtr.mk 0 8))).free_count = 1 ∧
    arena_free exC6w none = exC6w := by
  obtain ⟨hnull, hsp, hfc, -⟩ :=
    c6_free_effects_amended exC6w (APtr.mk 0 8) exC6w rfl (by decide) (by decide)
  refine ⟨hsp.trans (by decide), hfc.trans (by decide), hnull⟩

end ArenaC
